import Mathlib

/-!
Binary key-value protocol client (`client/binprot/prot.go`)

A shallow embedding of the response consumers (`consumeResponse`,
`consumeResponseCheckOpaque`, `consumeBatchResponse`) and of the request verbs
(`Set`, `Add`, `Replace`, `Get`, `GetWithOpaque`, `BatchGet`, `GAT`, `Delete`,
`Touch`) of package `binprot`.

* A byte is a `Fin 256`; a `[]byte` is a `List Byte`.
* A `*bufio.Reader` is the list of bytes still unread; the stream ends (EOF)
  where the list ends.  Every read returns the bytes it delivers and the unread
  remainder, so the position of the reader is explicit state.
* A Go call either returns or panics: `Run` records which, and in both cases the
  unread remainder of the stream at that moment.
* Go's `nil` slice and `nil` error are `none`.
* Machine integers are `Nat`/`Int`, reduced `% 2^w` where Go converts them to a
  `w`-bit type.
-/

namespace Binprot

/-- One octet of the wire. -/
abbrev Byte := Fin 256

/-- Conversion of an integer to `uint8` (keeps the low eight bits). -/
def byte (n : Nat) : Byte := ⟨n % 256, Nat.mod_lt n (by decide)⟩

/-- Big-endian encoding of `uint16(n)`. -/
def be16 (n : Nat) : List Byte := [byte (n / 256), byte n]

/-- Big-endian encoding of `uint32(n)`. -/
def be32 (n : Nat) : List Byte :=
  [byte (n / 16777216), byte (n / 65536), byte (n / 256), byte n]

/-- Big-endian encoding of `uint64(n)`. -/
def be64 (n : Nat) : List Byte :=
  be32 (n / 4294967296) ++ be32 n

/-- The byte at offset `i` of a buffer, as a number (0 past the end). -/
def at8 (buf : List Byte) (i : Nat) : Nat := (buf.getD i 0).val

/-- Big-endian `uint16` at offset `i`. -/
def at16 (buf : List Byte) (i : Nat) : Nat := at8 buf i * 256 + at8 buf (i + 1)

/-- Big-endian `uint32` at offset `i`. -/
def at32 (buf : List Byte) (i : Nat) : Nat := at16 buf i * 65536 + at16 buf (i + 2)

/-- Big-endian `uint64` at offset `i`. -/
def at64 (buf : List Byte) (i : Nat) : Nat := at32 buf i * 4294967296 + at32 buf (i + 4)

/-- Go's `uint32(opaque)` for an `int`: two's-complement truncation. -/
def uint32 (n : Int) : Nat := (n % 4294967296).toNat

/-- The errors the client can hand back: the two end-of-stream errors of
`io.ReadFull`, the bad-magic error of the header reader, and the errors a
response status maps to. -/
inductive Err
  | EOF
  | ErrUnexpectedEOF
  | ErrBadMagic
  | ErrKeyNotFound
  | ErrKeyExists
  | ErrValueTooBig
  | ErrServer (status : Nat)
  deriving DecidableEq, Repr

/-- Outcome of a Go call that yields `(value, error)`: it returns, or it
panics.  `rest` is the unread remainder of the stream when it does. -/
inductive Run (α : Type)
  | returned (val : Option α) (err : Option Err) (rest : List Byte)
  | aborted (msg : String) (rest : List Byte)
  deriving DecidableEq, Repr

/-- The unread remainder of the stream when the call ends. -/
def Run.rest {α : Type} : Run α → List Byte
  | .returned _ _ rest => rest
  | .aborted _ rest => rest

/-- Magic byte of a request header. -/
def MagicRequest : Nat := 0x80

/-- Magic byte of a response header. -/
def MagicResponse : Nat := 0x81

/-- Modelled from the spec: the opcode constants are declared outside
`prot.go`; the spec names the opcodes (Get, GetQ, Set, Add, Replace, Delete,
Touch, GAT, Noop) of the memcached binary protocol, whose numbers these are. -/
def Get : Nat := 0x00

/-- Opcode Set. -/
def Set : Nat := 0x01

/-- Opcode Add. -/
def Add : Nat := 0x02

/-- Opcode Replace. -/
def Replace : Nat := 0x03

/-- Opcode Delete. -/
def Delete : Nat := 0x04

/-- Opcode GetQ (quiet get). -/
def GetQ : Nat := 0x09

/-- Opcode Noop. -/
def Noop : Nat := 0x0a

/-- Opcode Touch. -/
def Touch : Nat := 0x1c

/-- Opcode GAT (get and touch). -/
def GAT : Nat := 0x1d

/-- The fields of a response header (`res` in the source; the consumers use
`Opcode`, `ExtraLen`, `Status`, `BodyLen` and `Opaque`). -/
structure Res where
  Magic : Nat
  Opcode : Nat
  KeyLen : Nat
  ExtraLen : Nat
  DataType : Nat
  Status : Nat
  BodyLen : Nat
  Opaque : Nat
  CASToken : Nat
  deriving DecidableEq, Repr

/-- Model of `io.ReadFull(r, buf)` with `len(buf) = n` on a fresh (zeroed) buffer: the
buffer afterwards, the error, and the unread remainder.  With fewer than `n`
bytes left it delivers what there is, leaves the tail of the buffer zero and
reports `io.EOF` (nothing read) or `io.ErrUnexpectedEOF`. -/
def readFull (r : List Byte) (n : Nat) : List Byte × Option Err × List Byte :=
  if n ≤ r.length then (r.take n, none, r.drop n)
  else if r = [] then (List.replicate n 0, some Err.EOF, [])
  else (r ++ List.replicate (n - r.length) 0, some Err.ErrUnexpectedEOF, [])

/-- Decoding of the 24 header bytes of a response, every field big-endian:
magic (1), opcode (1), key length (2), extra length (1), data type (1),
status (2), total body length (4), opaque (4), CAS (8). -/
def decodeRes (buf : List Byte) : Res :=
  { Magic := at8 buf 0
    Opcode := at8 buf 1
    KeyLen := at16 buf 2
    ExtraLen := at8 buf 4
    DataType := at8 buf 5
    Status := at16 buf 6
    BodyLen := at32 buf 8
    Opaque := at32 buf 12
    CASToken := at64 buf 16 }

/-- Modelled from the spec: `readRes` is declared outside `prot.go`.  It reads
the fixed 24-byte response header and parses it; a short read fails with the
I/O error of the read, a magic byte other than the response magic fails with
the protocol error.  The second component is the unread remainder. -/
def readRes (r : List Byte) : Except Err Res × List Byte :=
  match readFull r 24 with
  | (_, some e, r1) => (.error e, r1)
  | (buf, none, r1) =>
    if (decodeRes buf).Magic ≠ MagicResponse then (.error Err.ErrBadMagic, r1)
    else (.ok (decodeRes buf), r1)

/-- Modelled from the spec: `writeReq` is declared outside `prot.go`.  It
serialises the fixed 24-byte request header, every field big-endian: magic,
opcode, key length (2 bytes), extra length (1), data type (0), reserved (2
bytes, 0), total body length (4), opaque (4), CAS (8 bytes, 0). -/
def writeReq (opcode keylen extralen bodylen : Nat) (opq : Int) : List Byte :=
  [byte MagicRequest, byte opcode] ++ be16 keylen ++ [byte extralen, 0] ++ be16 0
    ++ be32 bodylen ++ be32 (uint32 opq) ++ be64 0

section Consumers

variable (statusToError : Nat → Option Err) (srsErr : Err → Bool)

/-- Function `consumeResponse`: one header, the whole declared body whatever the status,
the extras sliced off, the status mapped.  The error of `io.ReadFull` on the
body is dropped, as in the source; `buf[res.ExtraLen:]` panics when the extras
are longer than the buffer. -/
def consumeResponse (r : List Byte) : Run (List Byte) :=
  match readRes r with
  | (.error err, r1) => .returned none (some err) r1
  | (.ok res, r1) =>
    let apperr := statusToError res.Status
    let rd := readFull r1 res.BodyLen
    let buf := rd.1
    let r2 := rd.2.2
    if buf.length < res.ExtraLen then .aborted "slice bounds out of range" r2
    else
      let buf := buf.drop res.ExtraLen
      match apperr with
      | some e => if srsErr e then .returned (some buf) (some e) r2
                  else .returned (some buf) none r2
      | none => .returned (some buf) none r2

/-- Function `consumeResponseCheckOpaque`: as `consumeResponse`, with the panic on an
opaque other than `uint32(opaque)` right after the header. -/
def consumeResponseCheckOpaque (r : List Byte) (opq : Int) : Run (List Byte) :=
  match readRes r with
  | (.error err, r1) => .returned none (some err) r1
  | (.ok res, r1) =>
    if res.Opaque ≠ uint32 opq then .aborted "SHIT" r1
    else
      let apperr := statusToError res.Status
      let rd := readFull r1 res.BodyLen
      let buf := rd.1
      let r2 := rd.2.2
      if buf.length < res.ExtraLen then .aborted "slice bounds out of range" r2
      else
        let buf := buf.drop res.ExtraLen
        match apperr with
        | some e => if srsErr e then .returned (some buf) (some e) r2
                    else .returned (some buf) none r2
        | none => .returned (some buf) none r2

/-- The loop of `consumeBatchResponse`, with its three variables `opcode`,
`apperr`, `ret` and the reader as explicit state.  `fuel` bounds the number of
loop bodies run; `none` means the bound was hit before the loop ended. -/
def consumeBatchLoop : Nat → Nat → Option Err → List (List Byte) → List Byte →
    Option (Run (List (List Byte)))
  | 0, opcode, apperr, ret, r =>
    if opcode = Noop then some (.returned (some ret) apperr r) else none
  | fuel + 1, opcode, apperr, ret, r =>
    if opcode = Noop then some (.returned (some ret) apperr r)
    else
      match readRes r with
      | (.error err, r1) => some (.returned none (some err) r1)
      | (.ok res, r1) =>
        let rd := readFull r1 res.BodyLen
        let buf := rd.1
        let r2 := rd.2.2
        if buf.length < res.ExtraLen then some (.aborted "slice bounds out of range" r2)
        else
          consumeBatchLoop fuel res.Opcode (statusToError res.Status)
            (ret ++ [buf.drop res.ExtraLen]) r2

/-- Function `consumeBatchResponse`: the loop from `opcode = Get`, no error and no
values.  Every loop body that does not return reads a 24-byte header, so
`len(r) / 24 + 1` bodies are all the loop can run. -/
def consumeBatchResponse (r : List Byte) : Option (Run (List (List Byte))) :=
  consumeBatchLoop statusToError (r.length / 24 + 1) Get none [] r

/-- What one call of a verb does: the bytes it writes to the connection, in
order, before the flush, and how the call ends. -/
structure Call (ρ : Type) where
  written : List Byte
  result : ρ

/-- The step `_, err := consumeResponse(rw.Reader); return err`: the value is
dropped. -/
def discardValue {α : Type} : Run α → Run Unit
  | .returned _ err rest => .returned none err rest
  | .aborted msg rest => .aborted msg rest

/-- Method `BinProt.Set`; `exp` is the value `common.Exp()` supplies for this call and
`r` the unread response stream of `rw`. -/
def BinProt.Set (exp : Nat) (r : List Byte) (key value : List Byte) : Call (Run Unit) :=
  let bodylen := 8 + key.length + value.length
  let w := writeReq Binprot.Set key.length 8 bodylen 0
  let w := w ++ be32 0
  let w := w ++ be32 exp
  let w := w ++ key
  let w := w ++ value
  ⟨w, discardValue (consumeResponse statusToError srsErr r)⟩

/-- Method `BinProt.Add`. -/
def BinProt.Add (exp : Nat) (r : List Byte) (key value : List Byte) : Call (Run Unit) :=
  let bodylen := 8 + key.length + value.length
  let w := writeReq Binprot.Add key.length 8 bodylen 0
  let w := w ++ be32 0
  let w := w ++ be32 exp
  let w := w ++ key
  let w := w ++ value
  ⟨w, discardValue (consumeResponse statusToError srsErr r)⟩

/-- Method `BinProt.Replace`. -/
def BinProt.Replace (exp : Nat) (r : List Byte) (key value : List Byte) : Call (Run Unit) :=
  let bodylen := 8 + key.length + value.length
  let w := writeReq Binprot.Replace key.length 8 bodylen 0
  let w := w ++ be32 0
  let w := w ++ be32 exp
  let w := w ++ key
  let w := w ++ value
  ⟨w, discardValue (consumeResponse statusToError srsErr r)⟩

/-- Method `BinProt.Get`. -/
def BinProt.Get (r : List Byte) (key : List Byte) : Call (Run (List Byte)) :=
  let w := writeReq Binprot.Get key.length 0 key.length 0
  let w := w ++ key
  ⟨w, consumeResponse statusToError srsErr r⟩

/-- Method `BinProt.GetWithOpaque`. -/
def BinProt.GetWithOpaque (r : List Byte) (key : List Byte) (opq : Int) :
    Call (Run (List Byte)) :=
  let w := writeReq Binprot.Get key.length 0 key.length opq
  let w := w ++ key
  ⟨w, consumeResponseCheckOpaque statusToError srsErr r opq⟩

/-- Method `BinProt.BatchGet`: the `range` loop over the keys appends one header and
one key per round to what is written. -/
def BinProt.BatchGet (r : List Byte) (keys : List (List Byte)) :
    Call (Option (Run (List (List Byte)))) :=
  let w := keys.foldl (fun w key => (w ++ writeReq GetQ key.length 0 key.length 0) ++ key) []
  let w := w ++ writeReq Noop 0 0 0 0
  ⟨w, consumeBatchResponse statusToError r⟩

/-- Method `BinProt.GAT`. -/
def BinProt.GAT (exp : Nat) (r : List Byte) (key : List Byte) : Call (Run (List Byte)) :=
  let w := writeReq Binprot.GAT key.length 4 key.length 0
  let w := w ++ be32 exp
  let w := w ++ key
  ⟨w, consumeResponse statusToError srsErr r⟩

/-- Method `BinProt.Delete`. -/
def BinProt.Delete (r : List Byte) (key : List Byte) : Call (Run Unit) :=
  let w := writeReq Binprot.Delete key.length 0 key.length 0
  let w := w ++ key
  ⟨w, discardValue (consumeResponse statusToError srsErr r)⟩

/-- Method `BinProt.Touch`. -/
def BinProt.Touch (exp : Nat) (r : List Byte) (key : List Byte) : Call (Run Unit) :=
  let w := writeReq Binprot.Touch key.length 4 (key.length + 4) 0
  let w := w ++ be32 exp
  let w := w ++ key
  ⟨w, discardValue (consumeResponse statusToError srsErr r)⟩

end Consumers

/-- Modelled from the spec: `statusToError` is declared outside `prot.go`.  The
spec requires success (0) to map to no error and names key-not-found,
key-exists and item-too-large besides a catch-all server error; the numbers are
those of the memcached binary protocol.  Used only to run the consumers on
concrete streams: the theorems hold for every mapping. -/
def statusToErrorTable (status : Nat) : Option Err :=
  if status = 0 then none
  else if status = 1 then some Err.ErrKeyNotFound
  else if status = 2 then some Err.ErrKeyExists
  else if status = 3 then some Err.ErrValueTooBig
  else some (Err.ErrServer status)

/-- Modelled from the spec: `srsErr` is declared outside `prot.go`.  The spec
gives key-exists as an error that is surfaced; here every mapped error is.
Used only to run the consumers on concrete streams: the theorems hold for
every predicate. -/
def srsErrTable (_ : Err) : Bool := true

/-- The header a server writes for a response: the 24 bytes `readRes` parses
back into the same fields. -/
def encodeRes (h : Res) : List Byte :=
  [byte h.Magic, byte h.Opcode] ++ be16 h.KeyLen ++ [byte h.ExtraLen, byte h.DataType]
    ++ be16 h.Status ++ be32 h.BodyLen ++ be32 h.Opaque ++ be64 h.CASToken

/-- The total body length a request header declares (bytes 8 to 11). -/
def declaredBodyLen (frame : List Byte) : Nat := at32 frame 8

/-- The key length a request header declares (bytes 2 and 3). -/
def declaredKeyLen (frame : List Byte) : Nat := at16 frame 2

/-- The extra length a request header declares (byte 4). -/
def declaredExtraLen (frame : List Byte) : Nat := at8 frame 4

/-- The opcode a request header declares (byte 1). -/
def declaredOpcode (frame : List Byte) : Nat := at8 frame 1

/-- The opaque a request header declares (bytes 12 to 15). -/
def declaredOpaque (frame : List Byte) : Nat := at32 frame 12

/-! ## Streams of response frames -/

/-- A header a 24-byte encoding represents exactly: the response magic, and
every field within the width of its wire field. -/
def Res.valid (h : Res) : Prop :=
  h.Magic = MagicResponse ∧ h.Opcode < 256 ∧ h.KeyLen < 65536 ∧ h.ExtraLen < 256 ∧
    h.DataType < 256 ∧ h.Status < 65536 ∧ h.BodyLen < 4294967296 ∧
    h.Opaque < 4294967296 ∧ h.CASToken < 18446744073709551616

instance (h : Res) : Decidable h.valid := by
  unfold Res.valid; infer_instance

/-- A response frame: a header and the body that follows it on the wire. -/
structure Frame where
  hdr : Res
  body : List Byte
  deriving DecidableEq, Repr

/-- A well-formed frame: an encodable header, a body of the declared length,
and extras that fit in the body. -/
def Frame.wf (f : Frame) : Prop :=
  f.hdr.valid ∧ f.body.length = f.hdr.BodyLen ∧ f.hdr.ExtraLen ≤ f.hdr.BodyLen

instance (f : Frame) : Decidable f.wf := by
  unfold Frame.wf; infer_instance

/-- The bytes of a frame on the wire. -/
def Frame.encode (f : Frame) : List Byte := encodeRes f.hdr ++ f.body

/-- The value of a frame: its body without the leading extras. -/
def Frame.value (f : Frame) : List Byte := f.body.drop f.hdr.ExtraLen

/-- The bytes of a sequence of frames, in order. -/
def encodeFrames : List Frame → List Byte
  | [] => []
  | f :: fs => f.encode ++ encodeFrames fs

/-- The error the last-error-wins reading of the batch consumer names: the
mapped error of the last frame whose status maps to an error, `none` when no
frame does.  Written from the claim, to be compared with what the loop
returns. -/
def lastMappedError (statusToError : Nat → Option Err) (fs : List Frame) : Option Err :=
  fs.foldl (fun acc f => match statusToError f.hdr.Status with
    | some e => some e
    | none => acc) none

/-! ## Concrete frames and streams -/

/-- A hit for a quiet get: success status, four bytes of flags as extras, then
the two-byte value `v1`. -/
def hitFrame1 : Frame :=
  ⟨⟨0x81, 0x09, 0, 4, 0, 0, 6, 0, 0⟩, [0, 0, 0, 0, 0x76, 0x31]⟩

/-- A miss for a quiet get: status 1 (key not found), empty body. -/
def missFrame : Frame :=
  ⟨⟨0x81, 0x09, 0, 0, 0, 1, 0, 0, 0⟩, []⟩

/-- A second hit, with value `v3`. -/
def hitFrame3 : Frame :=
  ⟨⟨0x81, 0x09, 0, 4, 0, 0, 6, 0, 0⟩, [0, 0, 0, 0, 0x76, 0x33]⟩

/-- The no-op terminator: success status, empty body. -/
def noopFrame : Frame :=
  ⟨⟨0x81, 0x0a, 0, 0, 0, 0, 0, 0, 0⟩, []⟩

/-- A complete response whose header carries opaque 1: success status, empty
body. -/
def opaqueOneStream : List Byte :=
  [0x81, 0x00, 0, 0, 0, 0, 0, 0,  0, 0, 0, 0,  0, 0, 0, 1,  0, 0, 0, 0, 0, 0, 0, 0]

/-- The header `opaqueOneStream` holds. -/
def opaqueOneHeader : Res := ⟨0x81, 0, 0, 0, 0, 0, 0, 1, 0⟩

/-- A response cut short: the header (success status, no extras) declares a
body of five bytes, and the stream ends after two of them. -/
def shortBodyStream : List Byte :=
  [0x81, 0x00, 0, 0, 0, 0, 0, 0,  0, 0, 0, 5,  0, 0, 0, 0,  0, 0, 0, 0, 0, 0, 0, 0,  1, 2]

/-- The header `shortBodyStream` holds. -/
def shortBodyHeader : Res := ⟨0x81, 0, 0, 0, 0, 0, 5, 0, 0⟩

/-- The same cut-short response with the no-op opcode. -/
def shortNoopStream : List Byte :=
  [0x81, 0x0a, 0, 0, 0, 0, 0, 0,  0, 0, 0, 5,  0, 0, 0, 0,  0, 0, 0, 0, 0, 0, 0, 0,  1, 2]

/-- The header `shortNoopStream` holds. -/
def shortNoopHeader : Res := ⟨0x81, 0x0a, 0, 0, 0, 0, 5, 0, 0⟩

/-- A response whose header declares one byte of extras in a body of length
zero, with status 2 (key exists). -/
def extrasOverBodyStream : List Byte :=
  [0x81, 0x02, 0, 0, 1, 0, 0, 2,  0, 0, 0, 0,  0, 0, 0, 0,  0, 0, 0, 0, 0, 0, 0, 0]

/-- The header `extrasOverBodyStream` holds. -/
def extrasOverBodyHeader : Res := ⟨0x81, 2, 0, 1, 0, 2, 0, 0, 0⟩

/-- A complete response to an `Add` of an existing key: status 2 (key exists),
no extras, the five-byte body `hello`, then one byte of the next frame. -/
def existsStream : List Byte :=
  [0x81, 0x02, 0, 0, 0, 0, 0, 2,  0, 0, 0, 5,  0, 0, 0, 0,  0, 0, 0, 0, 0, 0, 0, 0,
   0x68, 0x65, 0x6c, 0x6c, 0x6f,  0x81]

/-- The header `existsStream` holds. -/
def existsHeader : Res := ⟨0x81, 2, 0, 0, 0, 2, 5, 0, 0⟩

/-- A complete response to a `Get`: success, four bytes of flags as extras, the
value `hi`, opaque 1234 (0x04d2), then one byte of the next frame. -/
def getHitStream : List Byte :=
  [0x81, 0x00, 0, 0, 4, 0, 0, 0,  0, 0, 0, 6,  0, 0, 0x04, 0xd2,  0, 0, 0, 0, 0, 0, 0, 0,
   0, 0, 0, 0, 0x68, 0x69,  0x81]

/-- The header `getHitStream` holds. -/
def getHitHeader : Res := ⟨0x81, 0, 0, 4, 0, 0, 6, 1234, 0⟩

/-- The same response with status 1 (key not found) instead of success. -/
def getMissStream : List Byte :=
  [0x81, 0x00, 0, 0, 4, 0, 0, 1,  0, 0, 0, 6,  0, 0, 0x04, 0xd2,  0, 0, 0, 0, 0, 0, 0, 0,
   0, 0, 0, 0, 0x68, 0x69,  0x81]

/-- The header `getMissStream` holds. -/
def getMissHeader : Res := ⟨0x81, 0, 0, 4, 0, 1, 6, 1234, 0⟩

/-- A complete frame that is no terminator and whose header declares one byte
of extras in a body of length zero. -/
def extrasOverBodyFrame : Frame :=
  ⟨⟨0x81, 0x09, 0, 1, 0, 0, 0, 0, 0⟩, []⟩

/-- The number of loop bodies the loop of `consumeBatchResponse` runs from a
given opcode and stream when allowed at most `fuel` of them: the same tests
as `consumeBatchLoop`, counting rounds instead of collecting values. -/
def consumeBatchRounds : Nat → Nat → List Byte → Nat
  | 0, _, _ => 0
  | fuel + 1, opcode, r =>
    if opcode = Noop then 0
    else
      match readRes r with
      | (.error _, _) => 1
      | (.ok res, r1) =>
        let rd := readFull r1 res.BodyLen
        let buf := rd.1
        let r2 := rd.2.2
        if buf.length < res.ExtraLen then 1
        else 1 + consumeBatchRounds fuel res.Opcode r2

/-- The frame the storage verbs are said to write: the request header with the
given opcode byte, `uint16(len(key))` as key length, extra length 8,
`uint32(8 + len(key) + len(value))` as total body length, opaque 0 and CAS 0,
then four zero bytes of flags, the expiration as four big-endian bytes, the
key and the value.  Written from the claim, to be compared with what `Set`,
`Add` and `Replace` write. -/
def storageFrame (opcode : Byte) (exp : Nat) (key value : List Byte) : List Byte :=
  [0x80, opcode, byte (key.length / 256), byte key.length, 8, 0, 0, 0,
   byte ((8 + key.length + value.length) / 16777216),
   byte ((8 + key.length + value.length) / 65536),
   byte ((8 + key.length + value.length) / 256),
   byte (8 + key.length + value.length),
   0, 0, 0, 0, 0, 0, 0, 0, 0, 0, 0, 0]
  ++ [0, 0, 0, 0]
  ++ [byte (exp / 16777216), byte (exp / 65536), byte (exp / 256), byte exp]
  ++ key ++ value

/-- The same frame with another status in its header. -/
def Frame.withStatus (f : Frame) (status : Nat) : Frame :=
  { f with hdr := { f.hdr with Status := status } }

/-- The first hit of the batch reply, reported as not found instead. -/
def hitFrame1NotFound : Frame :=
  ⟨⟨0x81, 0x09, 0, 4, 0, 1, 6, 0, 0⟩, [0, 0, 0, 0, 0x76, 0x31]⟩

/-- A terminator that reports status 2 (key exists). -/
def noopFrameExists : Frame :=
  ⟨⟨0x81, 0x0a, 0, 0, 0, 2, 0, 0, 0⟩, []⟩

/-- The first three bytes of a response header, after which the stream ends. -/
def cutHeader : List Byte := [0x81, 0x09, 0]

/-- Twenty-four bytes that start with the request magic 0x80 instead of the
response magic, and one more byte. -/
def badMagicHeader : List Byte :=
  [0x80, 0x09, 0, 0, 0, 0, 0, 0,  0, 0, 0, 0,  0, 0, 0, 0,  0, 0, 0, 0, 0, 0, 0, 0,  0x81]

/-- Sixty bytes with no no-op frame: two well-formed GetQ hits with a six-byte
body each, and nothing after them. -/
def noTerminatorStream : List Byte := encodeFrames [hitFrame1, hitFrame3]

/-! ## Codec lemmas -/

/-- The number a truncated byte stands for. -/
theorem byte_val (n : Nat) : (byte n).val = n % 256 := rfl

/-- A read of `n` bytes with at least `n` bytes left delivers the next `n`
bytes without error. -/
theorem readFull_of_le (r : List Byte) (n : Nat) (h : n ≤ r.length) :
    readFull r n = (r.take n, none, r.drop n) := by
  simp [readFull, h]

/-- The buffer keeps the length it was made with, however much was read. -/
theorem readFull_length (r : List Byte) (n : Nat) : (readFull r n).1.length = n := by
  unfold readFull
  split
  · simp; omega
  · split
    · simp
    · simp; omega

/-- A read of more bytes than are left delivers them all, zero-padded, with an
error, and exhausts the stream. -/
theorem readFull_short (r : List Byte) (n : Nat) (h : r.length < n) :
    ∃ e, readFull r n = (r ++ List.replicate (n - r.length) 0, some e, []) := by
  unfold readFull
  have h1 : ¬ n ≤ r.length := by omega
  simp only [h1, if_false]
  by_cases h2 : r = []
  · subst h2; exact ⟨Err.EOF, by simp⟩
  · exact ⟨Err.ErrUnexpectedEOF, by simp [h2]⟩

/-- A header read that succeeds had 24 bytes to read, decoded them, found the
response magic, and left exactly what follows those 24 bytes. -/
theorem readRes_ok {r : List Byte} {res : Res} (h : (readRes r).1 = .ok res) :
    readRes r = (.ok res, r.drop 24) ∧ 24 ≤ r.length ∧ res = decodeRes (r.take 24) ∧
      res.Magic = MagicResponse := by
  unfold readRes at h ⊢
  by_cases hl : 24 ≤ r.length
  · rw [readFull_of_le r 24 hl] at h ⊢
    by_cases hm : (decodeRes (List.take 24 r)).Magic = MagicResponse
    · simp only [hm, ne_eq, not_true_eq_false, if_false, Except.ok.injEq] at h ⊢
      subst h
      exact ⟨rfl, hl, rfl, hm⟩
    · simp [hm] at h
  · exfalso
    obtain ⟨e, he⟩ := readFull_short r 24 (by omega)
    rw [he] at h
    simp at h

/-- A header read that fails on a short stream reports the error of the read
and leaves nothing unread. -/
theorem readRes_short (r : List Byte) (h : r.length < 24) :
    ∃ e, readRes r = (.error e, []) := by
  obtain ⟨e, he⟩ := readFull_short r 24 h
  exact ⟨e, by unfold readRes; rw [he]⟩

/-- A header read at the end of the stream fails with `io.EOF`. -/
theorem readRes_nil : readRes [] = (.error Err.EOF, []) := by
  unfold readRes readFull
  simp

/-- An encoded response header is 24 bytes long. -/
theorem encodeRes_length (h : Res) : (encodeRes h).length = 24 := by
  simp [encodeRes, be16, be32, be64]

/-- A request header is 24 bytes long. -/
theorem writeReq_length (opcode keylen extralen bodylen : Nat) (opq : Int) :
    (writeReq opcode keylen extralen bodylen opq).length = 24 := by
  simp [writeReq, be16, be32, be64]

/-- Decoding the encoding of a valid header gives the header back. -/
theorem decodeRes_encodeRes (h : Res) (hv : h.valid) : decodeRes (encodeRes h) = h := by
  obtain ⟨h1, h2, h3, h4, h5, h6, h7, h8, h9⟩ := hv
  cases h with
  | mk Magic Opcode KeyLen ExtraLen DataType Status BodyLen Opq CASToken =>
    simp only [MagicResponse] at h1 h2 h3 h4 h5 h6 h7 h8 h9
    simp only [decodeRes, encodeRes, be16, be32, be64, at64, at32, at16, at8, List.cons_append,
      List.nil_append, List.getD_cons_zero, List.getD_cons_succ, byte_val, Res.mk.injEq]
    refine ⟨?_, ?_, ?_, ?_, ?_, ?_, ?_, ?_, ?_⟩ <;> omega

/-- Reading a valid encoded header off the front of a stream succeeds with that
header and leaves what follows it. -/
theorem readRes_encodeRes (h : Res) (hv : h.valid) (s : List Byte) :
    readRes (encodeRes h ++ s) = (.ok h, s) := by
  have hl : (encodeRes h).length = 24 := encodeRes_length h
  have hle : 24 ≤ (encodeRes h ++ s).length := by simp [hl]
  have ht : (encodeRes h ++ s).take 24 = encodeRes h := by
    rw [← hl]; exact List.take_left _ _
  have hd : (encodeRes h ++ s).drop 24 = s := by
    rw [← hl]; exact List.drop_left _ _
  unfold readRes
  rw [readFull_of_le _ 24 hle, ht, hd]
  simp only [decodeRes_encodeRes h hv]
  simp [hv.1]

section ConsumerLemmas

variable (statusToError : Nat → Option Err) (srsErr : Err → Bool)

/-- What `consumeResponse` does once the header has parsed. -/
theorem consumeResponse_of_ok {r : List Byte} {res : Res} (h : (readRes r).1 = .ok res) :
    consumeResponse statusToError srsErr r =
      if res.BodyLen < res.ExtraLen then
        .aborted "slice bounds out of range" (readFull (r.drop 24) res.BodyLen).2.2
      else
        .returned (some ((readFull (r.drop 24) res.BodyLen).1.drop res.ExtraLen))
          ((statusToError res.Status).filter srsErr) (readFull (r.drop 24) res.BodyLen).2.2 := by
  unfold consumeResponse
  rw [(readRes_ok h).1]
  simp only [readFull_length]
  split
  · rfl
  · cases hs : statusToError res.Status with
    | none => simp [Option.filter]
    | some e => by_cases he : srsErr e = true <;> simp [Option.filter, he]

/-- What `consumeResponseCheckOpaque` does once the header has parsed. -/
theorem consumeResponseCheckOpaque_of_ok {r : List Byte} {res : Res} (opq : Int)
    (h : (readRes r).1 = .ok res) :
    consumeResponseCheckOpaque statusToError srsErr r opq =
      if res.Opaque ≠ uint32 opq then .aborted "SHIT" (r.drop 24)
      else if res.BodyLen < res.ExtraLen then
        .aborted "slice bounds out of range" (readFull (r.drop 24) res.BodyLen).2.2
      else
        .returned (some ((readFull (r.drop 24) res.BodyLen).1.drop res.ExtraLen))
          ((statusToError res.Status).filter srsErr) (readFull (r.drop 24) res.BodyLen).2.2 := by
  unfold consumeResponseCheckOpaque
  rw [(readRes_ok h).1]
  simp only [readFull_length]
  split
  · rfl
  · split
    · rfl
    · cases hs : statusToError res.Status with
      | none => simp [Option.filter]
      | some e => by_cases he : srsErr e = true <;> simp [Option.filter, he]

/-- One round of the batch loop once the header has parsed and the extras fit. -/
theorem consumeBatchLoop_step {r : List Byte} {res : Res} (fuel opcode : Nat)
    (apperr : Option Err) (ret : List (List Byte)) (hop : opcode ≠ Noop)
    (h : (readRes r).1 = .ok res) (hx : res.ExtraLen ≤ res.BodyLen) :
    consumeBatchLoop statusToError (fuel + 1) opcode apperr ret r =
      consumeBatchLoop statusToError fuel res.Opcode (statusToError res.Status)
        (ret ++ [(readFull (r.drop 24) res.BodyLen).1.drop res.ExtraLen])
        (readFull (r.drop 24) res.BodyLen).2.2 := by
  rw [consumeBatchLoop]
  rw [(readRes_ok h).1]
  have hx2 : ¬ res.BodyLen < res.ExtraLen := by omega
  simp [hop, readFull_length, hx2]

/-- The batch loop stops as soon as the opcode it holds is the no-op. -/
theorem consumeBatchLoop_noop (fuel : Nat) (apperr : Option Err) (ret : List (List Byte))
    (r : List Byte) :
    consumeBatchLoop statusToError fuel Noop apperr ret r =
      some (.returned (some ret) apperr r) := by
  cases fuel <;> simp [consumeBatchLoop]

end ConsumerLemmas

/-! ## The batch consumer on a well-formed sequence of frames -/

/-- Every frame takes at least the 24 bytes of its header. -/
theorem encodeFrames_length_ge (fs : List Frame) : 24 * fs.length ≤ (encodeFrames fs).length := by
  induction fs with
  | nil => simp [encodeFrames]
  | cons f fs ih =>
    simp only [encodeFrames, Frame.encode, List.length_append, List.length_cons,
      encodeRes_length]
    omega

/-- Reading the header of a well-formed frame at the front of a stream. -/
theorem readRes_frame (f : Frame) (hf : f.wf) (s : List Byte) :
    (readRes (f.encode ++ s)).1 = .ok f.hdr ∧ (f.encode ++ s).drop 24 = f.body ++ s := by
  have h1 : f.encode ++ s = encodeRes f.hdr ++ (f.body ++ s) := by
    simp [Frame.encode]
  constructor
  · rw [h1, readRes_encodeRes f.hdr hf.1]
  · rw [h1, ← encodeRes_length f.hdr]
    exact List.drop_left _ _

/-- Reading the body of a well-formed frame. -/
theorem readFull_frame (f : Frame) (hf : f.wf) (s : List Byte) :
    readFull (f.body ++ s) f.hdr.BodyLen = (f.body, none, s) := by
  have hl : f.hdr.BodyLen ≤ (f.body ++ s).length := by
    simp [← hf.2.1]
  rw [readFull_of_le _ _ hl, ← hf.2.1]
  simp

/-- The batch loop over `fs`, none of them a no-op, then a no-op frame: it
appends the value of every frame, the terminator included, and ends with the
mapped status of the terminator. -/
theorem consumeBatchLoop_frames (statusToError : Nat → Option Err) (fs : List Frame) :
    ∀ (term : Frame) (rest : List Byte) (fuel opcode : Nat) (apperr : Option Err)
      (ret : List (List Byte)),
      (∀ f ∈ fs, f.wf ∧ f.hdr.Opcode ≠ Noop) → term.wf → term.hdr.Opcode = Noop →
      opcode ≠ Noop → fs.length + 1 ≤ fuel →
      consumeBatchLoop statusToError fuel opcode apperr ret
          (encodeFrames fs ++ term.encode ++ rest) =
        some (.returned (some (ret ++ fs.map Frame.value ++ [term.value]))
          (statusToError term.hdr.Status) rest) := by
  induction fs with
  | nil =>
    intro term rest fuel opcode apperr ret _ hterm hnoop hop hfuel
    obtain ⟨k, rfl⟩ : ∃ k, fuel = k + 1 := ⟨fuel - 1, by simp at hfuel; omega⟩
    obtain ⟨h1, h2⟩ := readRes_frame term hterm rest
    simp only [encodeFrames, List.nil_append, List.map_nil, List.append_nil]
    rw [consumeBatchLoop_step statusToError k opcode apperr ret hop h1 hterm.2.2, h2,
      readFull_frame term hterm rest, hnoop, consumeBatchLoop_noop]
    rfl
  | cons f fs ih =>
    intro term rest fuel opcode apperr ret hfs hterm hnoop hop hfuel
    obtain ⟨k, rfl⟩ : ∃ k, fuel = k + 1 := ⟨fuel - 1, by simp at hfuel; omega⟩
    have hf := hfs f (List.mem_cons_self f fs)
    have hs : encodeFrames (f :: fs) ++ term.encode ++ rest =
        f.encode ++ (encodeFrames fs ++ term.encode ++ rest) := by
      simp [encodeFrames]
    obtain ⟨h1, h2⟩ := readRes_frame f hf.1 (encodeFrames fs ++ term.encode ++ rest)
    rw [hs, consumeBatchLoop_step statusToError k opcode apperr ret hop h1 hf.1.2.2, h2,
      readFull_frame f hf.1 _]
    rw [ih term rest k f.hdr.Opcode (statusToError f.hdr.Status) _
      (fun g hg => hfs g (List.mem_cons_of_mem f hg)) hterm hnoop hf.2
      (by simp at hfuel; omega)]
    simp [Frame.value]

/-- The batch consumer on a well-formed batch reply. -/
theorem consumeBatchResponse_frames (statusToError : Nat → Option Err) (fs : List Frame)
    (term : Frame) (rest : List Byte) (hfs : ∀ f ∈ fs, f.wf ∧ f.hdr.Opcode ≠ Noop)
    (hterm : term.wf) (hnoop : term.hdr.Opcode = Noop) :
    consumeBatchResponse statusToError (encodeFrames fs ++ term.encode ++ rest) =
      some (.returned (some (fs.map Frame.value ++ [term.value]))
        (statusToError term.hdr.Status) rest) := by
  unfold consumeBatchResponse
  have hlen : fs.length + 1 ≤ (encodeFrames fs ++ term.encode ++ rest).length / 24 + 1 := by
    have h1 := encodeFrames_length_ge fs
    have h2 : 24 * fs.length ≤ (encodeFrames fs ++ term.encode ++ rest).length := by
      simp only [List.length_append]; omega
    have h3 : fs.length ≤ (encodeFrames fs ++ term.encode ++ rest).length / 24 := by
      rw [Nat.le_div_iff_mul_le (by decide)]; omega
    omega
  have h := consumeBatchLoop_frames statusToError fs term rest _ Get none [] hfs hterm hnoop
    (by decide) hlen
  simpa using h

/-- One round of the batch loop on a frame whose declared body is longer than
what is left of the stream: the buffer is what was there padded with zeros,
nothing is left unread, and the failure of the read goes unnoticed. -/
theorem consumeBatchLoop_short (statusToError : Nat → Option Err) {r : List Byte} {res : Res}
    (fuel opcode : Nat) (apperr : Option Err) (ret : List (List Byte)) (hop : opcode ≠ Noop)
    (h : (readRes r).1 = .ok res) (hshort : (r.drop 24).length < res.BodyLen)
    (hx : res.ExtraLen ≤ res.BodyLen) :
    consumeBatchLoop statusToError (fuel + 2) opcode apperr ret r =
      if res.Opcode = Noop then
        some (.returned (some (ret ++
          [(r.drop 24 ++ List.replicate (res.BodyLen - (r.drop 24).length) 0).drop res.ExtraLen]))
          (statusToError res.Status) [])
      else some (.returned none (some Err.EOF) []) := by
  obtain ⟨e, he⟩ := readFull_short (r.drop 24) res.BodyLen hshort
  rw [consumeBatchLoop_step statusToError (fuel + 1) opcode apperr ret hop h hx, he]
  by_cases hn : res.Opcode = Noop
  · rw [if_pos hn, hn, consumeBatchLoop_noop]
  · rw [if_neg hn, consumeBatchLoop, if_neg hn, readRes_nil]

/-! ## Request frames -/

/-- The 24 bytes of a request header, one by one. -/
theorem writeReq_bytes (opcode keylen extralen bodylen : Nat) (opq : Int) :
    writeReq opcode keylen extralen bodylen opq =
      [0x80, byte opcode, byte (keylen / 256), byte keylen, byte extralen, 0, 0, 0,
       byte (bodylen / 16777216), byte (bodylen / 65536), byte (bodylen / 256), byte bodylen,
       byte (uint32 opq / 16777216), byte (uint32 opq / 65536), byte (uint32 opq / 256),
       byte (uint32 opq), 0, 0, 0, 0, 0, 0, 0, 0] := by
  simp only [writeReq, be16, be32, be64, List.cons_append, List.nil_append]
  rfl

/-- The lengths a request header declares are its arguments, cut to the width
of the field. -/
theorem writeReq_declared (opcode keylen extralen bodylen : Nat) (opq : Int)
    (tail : List Byte) :
    declaredKeyLen (writeReq opcode keylen extralen bodylen opq ++ tail) = keylen % 65536 ∧
      declaredExtraLen (writeReq opcode keylen extralen bodylen opq ++ tail) = extralen % 256 ∧
      declaredBodyLen (writeReq opcode keylen extralen bodylen opq ++ tail)
        = bodylen % 4294967296 := by
  rw [writeReq_bytes]
  simp only [declaredKeyLen, declaredExtraLen, declaredBodyLen, at32, at16, at8,
    List.cons_append, List.getD_cons_zero, List.getD_cons_succ, byte_val]
  refine ⟨?_, trivial, ?_⟩ <;> omega

/-- For every key, the header `GAT` writes declares four bytes of extras and a
total body of `len(key)` bytes, four fewer than the `4 + len(key)` bytes the
verb writes after the header; `Touch`, with the same extras, declares
`len(key) + 4`. -/
theorem GAT_declared_body_length (statusToError : Nat → Option Err) (srsErr : Err → Bool)
    (exp : Nat) (r key : List Byte) :
    declaredExtraLen (BinProt.GAT statusToError srsErr exp r key).written = 4 ∧
      declaredBodyLen (BinProt.GAT statusToError srsErr exp r key).written
        = key.length % 4294967296 ∧
      ((BinProt.GAT statusToError srsErr exp r key).written.drop 24).length = 4 + key.length ∧
      declaredBodyLen (BinProt.Touch statusToError srsErr exp r key).written
        = (key.length + 4) % 4294967296 ∧
      ((BinProt.Touch statusToError srsErr exp r key).written.drop 24).length
        = 4 + key.length := by
  have hg := writeReq_declared GAT key.length 4 key.length 0 (be32 exp ++ key)
  have ht := writeReq_declared Touch key.length 4 (key.length + 4) 0 (be32 exp ++ key)
  simp only [BinProt.GAT, BinProt.Touch, List.append_assoc]
  refine ⟨hg.2.1, hg.2.2, ?_, ht.2.2, ?_⟩
  · rw [← writeReq_length GAT key.length 4 key.length 0, List.drop_left]
    simp [be32]
    omega
  · rw [← writeReq_length Touch key.length 4 (key.length + 4) 0, List.drop_left]
    simp [be32]
    omega

/-- The `range` loop of `BatchGet` appends one header and one key per key to
what was written before it. -/
theorem BatchGet_loop_written (keys : List (List Byte)) :
    ∀ acc : List Byte,
      keys.foldl (fun w key => (w ++ writeReq GetQ key.length 0 key.length 0) ++ key) acc =
        acc ++ keys.flatMap (fun key => writeReq GetQ key.length 0 key.length 0 ++ key) := by
  induction keys with
  | nil => intro acc; simp
  | cons key keys ih =>
    intro acc
    rw [List.foldl_cons, ih]
    simp [List.flatMap_cons]

/-! ## The claims -/

/-- C1, at the verb that breaks it: `GAT` of the one-byte key `a` writes a
header declaring key length 1, extra length 4 and total body length 1, and
then writes five bytes (four of expiration, one of key); for the same key
`Touch` declares total body length 5 and writes five bytes. -/
theorem GAT_body_length_mismatch :
    declaredKeyLen (BinProt.GAT statusToErrorTable srsErrTable 7 [] [0x61]).written = 1 ∧
      declaredExtraLen (BinProt.GAT statusToErrorTable srsErrTable 7 [] [0x61]).written = 4 ∧
      declaredBodyLen (BinProt.GAT statusToErrorTable srsErrTable 7 [] [0x61]).written = 1 ∧
      ((BinProt.GAT statusToErrorTable srsErrTable 7 [] [0x61]).written.drop 24).length = 5 ∧
      declaredBodyLen (BinProt.Touch statusToErrorTable srsErrTable 7 [] [0x61]).written = 5 ∧
      ((BinProt.Touch statusToErrorTable srsErrTable 7 [] [0x61]).written.drop 24).length
        = 5 := by
  decide

/-- C2, as the code has it: whenever the first header parses and carries an
opaque other than `uint32(opaque)`, `consumeResponseCheckOpaque` panics right
after the header, with only the 24 header bytes consumed, and so does
`GetWithOpaque`: nothing is returned to the caller. -/
theorem consumeResponseCheckOpaque_mismatch_panics (statusToError : Nat → Option Err)
    (srsErr : Err → Bool) (r key : List Byte) (opq : Int) (res : Res)
    (h : (readRes r).1 = .ok res) (hne : res.Opaque ≠ uint32 opq) :
    consumeResponseCheckOpaque statusToError srsErr r opq = .aborted "SHIT" (r.drop 24) ∧
      (BinProt.GetWithOpaque statusToError srsErr r key opq).result
        = .aborted "SHIT" (r.drop 24) := by
  have h1 := consumeResponseCheckOpaque_of_ok statusToError srsErr opq h
  rw [if_pos hne] at h1
  exact ⟨h1, h1⟩

/-- Witness for C2: a response with opaque 1 to a request with opaque 1234. -/
theorem consumeResponseCheckOpaque_mismatch_panics_witness :
    (readRes opaqueOneStream).1 = .ok opaqueOneHeader ∧ opaqueOneHeader.Opaque ≠ uint32 1234 ∧
      (consumeResponseCheckOpaque statusToErrorTable srsErrTable opaqueOneStream 1234
          = .aborted "SHIT" (opaqueOneStream.drop 24) ∧
        (BinProt.GetWithOpaque statusToErrorTable srsErrTable opaqueOneStream [0x61] 1234).result
          = .aborted "SHIT" (opaqueOneStream.drop 24)) :=
  ⟨rfl, by decide,
    consumeResponseCheckOpaque_mismatch_panics statusToErrorTable srsErrTable opaqueOneStream
      [0x61] 1234 opaqueOneHeader rfl (by decide)⟩

/-- Counterexample to C2: the header parses with opaque 1, the request had
opaque 1234, and the call panics: it returns neither a value nor any error. -/
theorem consumeResponseCheckOpaque_mismatch_no_error :
    (readRes opaqueOneStream).1 = .ok opaqueOneHeader ∧ opaqueOneHeader.Opaque ≠ uint32 1234 ∧
      consumeResponseCheckOpaque statusToErrorTable srsErrTable opaqueOneStream 1234
        = .aborted "SHIT" [] ∧
      ¬ ∃ v e rest, consumeResponseCheckOpaque statusToErrorTable srsErrTable opaqueOneStream 1234
        = .returned v e rest := by
  refine ⟨rfl, by decide, by decide, ?_⟩
  rintro ⟨v, e, rest, h⟩
  have h2 : consumeResponseCheckOpaque statusToErrorTable srsErrTable opaqueOneStream 1234
      = .aborted "SHIT" [] := by decide
  rw [h2] at h
  cases h

/-- C3, as the code has it: when the header parses, the extras fit in the
declared body, and the declared body is longer than what is left of the
stream, the failed body read is not reported.  `consumeResponse` and, on a
matching opaque, `consumeResponseCheckOpaque` return the bytes that were
there, padded with zeros to the declared length, without the extras, and as
error only what the status maps to.  The batch loop, in any round, returns the
values with the mapped status of the short frame when that frame is the no-op
terminator, and otherwise fails on the next header read with `io.EOF` and no
values. -/
theorem short_body_read_error_dropped (statusToError : Nat → Option Err) (srsErr : Err → Bool)
    (r : List Byte) (res : Res) (opq : Int) (h : (readRes r).1 = .ok res)
    (hshort : (r.drop 24).length < res.BodyLen) (hx : res.ExtraLen ≤ res.BodyLen) :
    consumeResponse statusToError srsErr r =
        .returned (some ((r.drop 24 ++
            List.replicate (res.BodyLen - (r.drop 24).length) 0).drop res.ExtraLen))
          ((statusToError res.Status).filter srsErr) [] ∧
      (res.Opaque = uint32 opq →
        consumeResponseCheckOpaque statusToError srsErr r opq =
          .returned (some ((r.drop 24 ++
              List.replicate (res.BodyLen - (r.drop 24).length) 0).drop res.ExtraLen))
            ((statusToError res.Status).filter srsErr) []) ∧
      (∀ (fuel opcode : Nat) (apperr : Option Err) (ret : List (List Byte)), opcode ≠ Noop →
        consumeBatchLoop statusToError (fuel + 2) opcode apperr ret r =
          if res.Opcode = Noop then
            some (.returned (some (ret ++ [(r.drop 24 ++
                List.replicate (res.BodyLen - (r.drop 24).length) 0).drop res.ExtraLen]))
              (statusToError res.Status) [])
          else some (.returned none (some Err.EOF) [])) ∧
      consumeBatchResponse statusToError r =
        if res.Opcode = Noop then
          some (.returned (some [(r.drop 24 ++
              List.replicate (res.BodyLen - (r.drop 24).length) 0).drop res.ExtraLen])
            (statusToError res.Status) [])
        else some (.returned none (some Err.EOF) []) := by
  obtain ⟨e, he⟩ := readFull_short (r.drop 24) res.BodyLen hshort
  have hx2 : ¬ res.BodyLen < res.ExtraLen := by omega
  refine ⟨?_, ?_, ?_, ?_⟩
  · rw [consumeResponse_of_ok statusToError srsErr h, if_neg hx2, he]
  · intro ho
    have ho2 : ¬ res.Opaque ≠ uint32 opq := by simpa using ho
    rw [consumeResponseCheckOpaque_of_ok statusToError srsErr opq h, if_neg ho2, if_neg hx2, he]
  · intro fuel opcode apperr ret hop
    exact consumeBatchLoop_short statusToError fuel opcode apperr ret hop h hshort hx
  · have hl := (readRes_ok h).2.1
    obtain ⟨k, hk⟩ : ∃ k, r.length / 24 + 1 = k + 2 :=
      ⟨r.length / 24 - 1, by have := (Nat.le_div_iff_mul_le (by decide : 0 < 24)).2
                               (by omega : 1 * 24 ≤ r.length); omega⟩
    unfold consumeBatchResponse
    rw [hk, consumeBatchLoop_short statusToError k Get none [] (by decide) h hshort hx]
    simp

/-- Witness for C3: the header declares five body bytes, two are left. -/
theorem short_body_read_error_dropped_witness :
    (readRes shortBodyStream).1 = .ok shortBodyHeader ∧
      (shortBodyStream.drop 24).length < shortBodyHeader.BodyLen ∧
      shortBodyHeader.ExtraLen ≤ shortBodyHeader.BodyLen ∧
      consumeResponse statusToErrorTable srsErrTable shortBodyStream =
        .returned (some ((shortBodyStream.drop 24 ++ List.replicate
            (shortBodyHeader.BodyLen - (shortBodyStream.drop 24).length) 0).drop
              shortBodyHeader.ExtraLen))
          ((statusToErrorTable shortBodyHeader.Status).filter srsErrTable) [] :=
  ⟨rfl, by decide, by decide,
    (short_body_read_error_dropped statusToErrorTable srsErrTable shortBodyStream
      shortBodyHeader 0 rfl (by decide) (by decide)).1⟩

/-- Counterexample to C3: on a stream whose header parses and declares five
body bytes with two left, `consumeResponse` and `consumeResponseCheckOpaque`
return the value `[1, 2, 0, 0, 0]` with a nil error, and so does
`consumeBatchResponse` when the short frame is the no-op terminator. -/
theorem short_body_returns_nil_error :
    (readRes shortBodyStream).1 = .ok shortBodyHeader ∧
      (shortBodyStream.drop 24).length = 2 ∧ shortBodyHeader.BodyLen = 5 ∧
      consumeResponse statusToErrorTable srsErrTable shortBodyStream
        = .returned (some [1, 2, 0, 0, 0]) none [] ∧
      consumeResponseCheckOpaque statusToErrorTable srsErrTable shortBodyStream 0
        = .returned (some [1, 2, 0, 0, 0]) none [] ∧
      (readRes shortNoopStream).1 = .ok shortNoopHeader ∧
      (shortNoopStream.drop 24).length = 2 ∧ shortNoopHeader.BodyLen = 5 ∧
      consumeBatchResponse statusToErrorTable shortNoopStream
        = some (.returned (some [[1, 2, 0, 0, 0]]) none []) :=
  ⟨rfl, by decide, by decide, by decide, by decide, rfl, by decide, by decide, by decide⟩

/-- C4, as the code has it: on a well-formed batch reply (frames that are not
no-ops, then the first no-op frame) the error `consumeBatchResponse` returns is
the mapped status of the last frame read, the terminator: every round
overwrites the error of the round before, so it is nil whenever the
terminator reports success, whatever the earlier frames reported. -/
theorem consumeBatchResponse_error_is_terminator_status (statusToError : Nat → Option Err)
    (fs : List Frame) (term : Frame) (rest : List Byte)
    (hfs : ∀ f ∈ fs, f.wf ∧ f.hdr.Opcode ≠ Noop) (hterm : term.wf)
    (hnoop : term.hdr.Opcode = Noop) :
    (∃ vals, consumeBatchResponse statusToError (encodeFrames fs ++ term.encode ++ rest) =
        some (.returned (some vals) (statusToError term.hdr.Status) rest)) ∧
      (statusToError term.hdr.Status = none →
        ∃ vals, consumeBatchResponse statusToError (encodeFrames fs ++ term.encode ++ rest) =
          some (.returned (some vals) none rest)) := by
  have h := consumeBatchResponse_frames statusToError fs term rest hfs hterm hnoop
  refine ⟨⟨_, h⟩, fun h0 => ⟨fs.map Frame.value ++ [term.value], ?_⟩⟩
  rw [h, h0]

/-- Witness for C4: a hit, a miss and a hit, then a success terminator. -/
theorem consumeBatchResponse_error_is_terminator_status_witness :
    (∀ f ∈ [hitFrame1, missFrame, hitFrame3], f.wf ∧ f.hdr.Opcode ≠ Noop) ∧ noopFrame.wf ∧
      noopFrame.hdr.Opcode = Noop ∧
      ((∃ vals, consumeBatchResponse statusToErrorTable
          (encodeFrames [hitFrame1, missFrame, hitFrame3] ++ noopFrame.encode ++ []) =
            some (.returned (some vals) (statusToErrorTable noopFrame.hdr.Status) [])) ∧
        (statusToErrorTable noopFrame.hdr.Status = none →
          ∃ vals, consumeBatchResponse statusToErrorTable
            (encodeFrames [hitFrame1, missFrame, hitFrame3] ++ noopFrame.encode ++ []) =
              some (.returned (some vals) none []))) :=
  ⟨by decide, by decide, by decide,
    consumeBatchResponse_error_is_terminator_status statusToErrorTable
      [hitFrame1, missFrame, hitFrame3] noopFrame [] (by decide) (by decide) (by decide)⟩

/-- Counterexample to C4: the reply to `BatchGet([k1, k2, k3])` with `k2`
absent is a hit, a not-found frame, a hit and a success terminator.  The last
frame whose status maps to an error is the not-found frame, yet the error
returned is nil. -/
theorem consumeBatchResponse_drops_earlier_error :
    (∀ f ∈ [hitFrame1, missFrame, hitFrame3], f.wf ∧ f.hdr.Opcode ≠ Noop) ∧ noopFrame.wf ∧
      noopFrame.hdr.Opcode = Noop ∧
      lastMappedError statusToErrorTable [hitFrame1, missFrame, hitFrame3, noopFrame]
        = some Err.ErrKeyNotFound ∧
      consumeBatchResponse statusToErrorTable
          (encodeFrames [hitFrame1, missFrame, hitFrame3, noopFrame])
        = some (.returned (some [[0x76, 0x31], [], [0x76, 0x33], []]) none []) :=
  ⟨by decide, by decide, by decide, by decide, by decide⟩

/-- C5, as the code has it: on a well-formed batch reply of `n` frames and a
no-op terminator, `consumeBatchResponse` returns `n + 1` values in stream
order: the body of each of the `n` frames without that frame's own extras,
and then the body of the terminator without its extras, which the loop appends
before it tests the opcode.  The error is the mapped status of the terminator
and the bytes after the terminator are left unread. -/
theorem consumeBatchResponse_values (statusToError : Nat → Option Err)
    (fs : List Frame) (term : Frame) (rest : List Byte)
    (hfs : ∀ f ∈ fs, f.wf ∧ f.hdr.Opcode ≠ Noop) (hterm : term.wf)
    (hnoop : term.hdr.Opcode = Noop) :
    consumeBatchResponse statusToError (encodeFrames fs ++ term.encode ++ rest) =
        some (.returned
          (some (fs.map (fun f => f.body.drop f.hdr.ExtraLen) ++
            [term.body.drop term.hdr.ExtraLen]))
          (statusToError term.hdr.Status) rest) ∧
      (fs.map (fun f => f.body.drop f.hdr.ExtraLen) ++
        [term.body.drop term.hdr.ExtraLen]).length = fs.length + 1 := by
  refine ⟨?_, by simp⟩
  rw [consumeBatchResponse_frames statusToError fs term rest hfs hterm hnoop]
  rfl

/-- Witness for C5: two hits around a miss, then the terminator: four values. -/
theorem consumeBatchResponse_values_witness :
    (∀ f ∈ [hitFrame1, missFrame, hitFrame3], f.wf ∧ f.hdr.Opcode ≠ Noop) ∧ noopFrame.wf ∧
      noopFrame.hdr.Opcode = Noop ∧
      (consumeBatchResponse statusToErrorTable
          (encodeFrames [hitFrame1, missFrame, hitFrame3] ++ noopFrame.encode ++ [0x81]) =
        some (.returned
          (some ([hitFrame1, missFrame, hitFrame3].map (fun f => f.body.drop f.hdr.ExtraLen) ++
            [noopFrame.body.drop noopFrame.hdr.ExtraLen]))
          (statusToErrorTable noopFrame.hdr.Status) [0x81]) ∧
        ([hitFrame1, missFrame, hitFrame3].map (fun f => f.body.drop f.hdr.ExtraLen) ++
          [noopFrame.body.drop noopFrame.hdr.ExtraLen]).length
            = [hitFrame1, missFrame, hitFrame3].length + 1) :=
  ⟨by decide, by decide, by decide,
    consumeBatchResponse_values statusToErrorTable [hitFrame1, missFrame, hitFrame3] noopFrame
      [0x81] (by decide) (by decide) (by decide)⟩

/-- Counterexample to C5: the reply to `BatchGet` of no keys is the terminator
alone (24 bytes, success, empty body); the consumer returns one value, the
empty body of the terminator, not the empty sequence. -/
theorem consumeBatchResponse_terminator_only :
    noopFrame.wf ∧ noopFrame.hdr.Opcode = Noop ∧ noopFrame.encode.length = 24 ∧
      consumeBatchResponse statusToErrorTable noopFrame.encode
        = some (.returned (some [[]]) none []) ∧
      consumeBatchResponse statusToErrorTable noopFrame.encode
        ≠ some (.returned (some []) none []) ∧
      (BinProt.BatchGet statusToErrorTable noopFrame.encode []).result
        = some (.returned (some [[]]) none []) :=
  ⟨by decide, by decide, by decide, by decide, by decide, by decide⟩

/-- C6: on a stream that starts with a well-formed response frame (the header
parses, its extras fit in the declared body, and at least the declared body
follows the header), `consumeResponse` returns as value the declared body (the
`BodyLen` bytes after the 24 header bytes) without its first `ExtraLen` bytes,
for every status mapping and every status; the value has
`BodyLen - ExtraLen` bytes. -/
theorem consumeResponse_value_is_body_after_extras (statusToError : Nat → Option Err)
    (srsErr : Err → Bool) (r : List Byte) (res : Res) (h : (readRes r).1 = .ok res)
    (hx : res.ExtraLen ≤ res.BodyLen) (hb : res.BodyLen ≤ (r.drop 24).length) :
    (∃ err rest, consumeResponse statusToError srsErr r =
        .returned (some (((r.drop 24).take res.BodyLen).drop res.ExtraLen)) err rest) ∧
      (((r.drop 24).take res.BodyLen).drop res.ExtraLen).length
        = res.BodyLen - res.ExtraLen := by
  have hx2 : ¬ res.BodyLen < res.ExtraLen := by omega
  constructor
  · refine ⟨(statusToError res.Status).filter srsErr, (r.drop 24).drop res.BodyLen, ?_⟩
    rw [consumeResponse_of_ok statusToError srsErr h, if_neg hx2, readFull_of_le _ _ hb]
  · simp only [List.length_drop, List.length_take] at hb ⊢
    omega

/-- Witness for C6: a not-found response with four bytes of extras and the
payload `hi`. -/
theorem consumeResponse_value_is_body_after_extras_witness :
    (readRes getMissStream).1 = .ok getMissHeader ∧
      getMissHeader.ExtraLen ≤ getMissHeader.BodyLen ∧
      getMissHeader.BodyLen ≤ (getMissStream.drop 24).length ∧
      ((∃ err rest, consumeResponse statusToErrorTable srsErrTable getMissStream =
          .returned (some (((getMissStream.drop 24).take getMissHeader.BodyLen).drop
            getMissHeader.ExtraLen)) err rest) ∧
        (((getMissStream.drop 24).take getMissHeader.BodyLen).drop
          getMissHeader.ExtraLen).length = getMissHeader.BodyLen - getMissHeader.ExtraLen) :=
  ⟨rfl, by decide, by decide,
    consumeResponse_value_is_body_after_extras statusToErrorTable srsErrTable getMissStream
      getMissHeader rfl (by decide) (by decide)⟩

/-- C7: on a stream that starts with a complete response frame (the header
parses and at least the declared body follows it), `consumeResponse` leaves
unread exactly what follows the 24 header bytes and the `BodyLen` body bytes,
for every status mapping; a second stream whose header differs only in the
status and which continues with the same bytes is left at the same place. -/
theorem consumeResponse_consumes_one_frame (statusToError : Nat → Option Err)
    (srsErr : Err → Bool) (r : List Byte) (res : Res) (h : (readRes r).1 = .ok res)
    (hb : res.BodyLen ≤ (r.drop 24).length) :
    (consumeResponse statusToError srsErr r).rest = r.drop (24 + res.BodyLen) ∧
      ∀ (r2 : List Byte) (res2 : Res), (readRes r2).1 = .ok res2 →
        res2 = { res with Status := res2.Status } → r2.drop 24 = r.drop 24 →
        (consumeResponse statusToError srsErr r2).rest
          = (consumeResponse statusToError srsErr r).rest := by
  have key : ∀ (s : List Byte) (rs : Res), (readRes s).1 = .ok rs →
      rs.BodyLen ≤ (s.drop 24).length →
      (consumeResponse statusToError srsErr s).rest = (s.drop 24).drop rs.BodyLen := by
    intro s rs hs hsb
    rw [consumeResponse_of_ok statusToError srsErr hs, readFull_of_le _ _ hsb]
    split <;> rfl
  refine ⟨?_, ?_⟩
  · rw [key r res h hb, List.drop_drop]
  · intro r2 res2 h2 hres hdrop
    have hbl : res2.BodyLen = res.BodyLen := by rw [hres]
    rw [key r res h hb, key r2 res2 h2 (by rw [hbl, hdrop]; exact hb), hbl, hdrop]

/-- Witness for C7: a hit and a miss that differ only in the status byte. -/
theorem consumeResponse_consumes_one_frame_witness :
    (readRes getHitStream).1 = .ok getHitHeader ∧
      getHitHeader.BodyLen ≤ (getHitStream.drop 24).length ∧
      (consumeResponse statusToErrorTable srsErrTable getHitStream).rest
        = getHitStream.drop (24 + getHitHeader.BodyLen) ∧
      (consumeResponse statusToErrorTable srsErrTable getMissStream).rest
        = (consumeResponse statusToErrorTable srsErrTable getHitStream).rest :=
  ⟨rfl, by decide,
    (consumeResponse_consumes_one_frame statusToErrorTable srsErrTable getHitStream
      getHitHeader rfl (by decide)).1,
    (consumeResponse_consumes_one_frame statusToErrorTable srsErrTable getHitStream
      getHitHeader rfl (by decide)).2 getMissStream getMissHeader rfl (by decide) (by decide)⟩

/-- C8, with the extras inside the body: when the header parses and
`ExtraLen ≤ BodyLen`, `consumeResponse` returns the body read (padded with
zeros if the stream ended early) without its extras, together with an error
that is `e` exactly when the status maps to `e` and `srsErr e` holds; so the
error is non-nil if and only if the status maps to an error that `srsErr`
accepts, and nil for every other status. -/
theorem consumeResponse_error_iff_serious (statusToError : Nat → Option Err)
    (srsErr : Err → Bool) (r : List Byte) (res : Res) (h : (readRes r).1 = .ok res)
    (hx : res.ExtraLen ≤ res.BodyLen) :
    ∃ err rest, consumeResponse statusToError srsErr r =
        .returned (some ((readFull (r.drop 24) res.BodyLen).1.drop res.ExtraLen)) err rest ∧
      (∀ e, err = some e ↔ (statusToError res.Status = some e ∧ srsErr e = true)) ∧
      (err ≠ none ↔ ∃ e, statusToError res.Status = some e ∧ srsErr e = true) := by
  have hx2 : ¬ res.BodyLen < res.ExtraLen := by omega
  have hiff : ∀ e, (statusToError res.Status).filter srsErr = some e ↔
      (statusToError res.Status = some e ∧ srsErr e = true) := by
    intro e
    cases hs : statusToError res.Status with
    | none => simp [Option.filter]
    | some a =>
      by_cases ha : srsErr a = true
      · simp only [Option.filter, ha, if_true, Option.some.injEq]
        constructor
        · rintro rfl; exact ⟨rfl, ha⟩
        · rintro ⟨h1, _⟩; exact h1
      · simp only [Option.filter, ha, Option.some.injEq]
        constructor
        · intro h1; simp at h1
        · rintro ⟨rfl, h2⟩; exact absurd h2 ha
  refine ⟨(statusToError res.Status).filter srsErr, (readFull (r.drop 24) res.BodyLen).2.2,
    ?_, hiff, ?_⟩
  · rw [consumeResponse_of_ok statusToError srsErr h, if_neg hx2]
  · rw [Option.ne_none_iff_exists']
    exact exists_congr hiff

/-- Witness for C8: the key-exists response to an `Add`, with its body. -/
theorem consumeResponse_error_iff_serious_witness :
    (readRes existsStream).1 = .ok existsHeader ∧
      existsHeader.ExtraLen ≤ existsHeader.BodyLen ∧
      ∃ err rest, consumeResponse statusToErrorTable srsErrTable existsStream =
          .returned (some ((readFull (existsStream.drop 24) existsHeader.BodyLen).1.drop
            existsHeader.ExtraLen)) err rest ∧
        (∀ e, err = some e ↔
          (statusToErrorTable existsHeader.Status = some e ∧ srsErrTable e = true)) ∧
        (err ≠ none ↔
          ∃ e, statusToErrorTable existsHeader.Status = some e ∧ srsErrTable e = true) :=
  ⟨rfl, by decide,
    consumeResponse_error_iff_serious statusToErrorTable srsErrTable existsStream existsHeader
      rfl (by decide)⟩

/-- Counterexample to C8: the header parses, its status maps to an error that
the predicate accepts, but it declares one byte of extras in an empty body:
slicing the extras off panics and no error is returned. -/
theorem consumeResponse_extras_over_body_panics :
    (readRes extrasOverBodyStream).1 = .ok extrasOverBodyHeader ∧
      statusToErrorTable extrasOverBodyHeader.Status = some Err.ErrKeyExists ∧
      srsErrTable Err.ErrKeyExists = true ∧
      consumeResponse statusToErrorTable srsErrTable extrasOverBodyStream
        = .aborted "slice bounds out of range" [] ∧
      ¬ ∃ v e rest, consumeResponse statusToErrorTable srsErrTable extrasOverBodyStream
        = .returned v (some e) rest := by
  refine ⟨rfl, by decide, by decide, by decide, ?_⟩
  rintro ⟨v, e, rest, h⟩
  have h2 : consumeResponse statusToErrorTable srsErrTable extrasOverBodyStream
      = .aborted "slice bounds out of range" [] := by decide
  rw [h2] at h
  cases h

/-- C9: when the first header parses and its opaque is `uint32(opaque)`,
`consumeResponseCheckOpaque` ends exactly as `consumeResponse` does on the
same stream: the same value, the same error and the same unread remainder (or
the same panic at the extras). -/
theorem consumeResponseCheckOpaque_eq_consumeResponse (statusToError : Nat → Option Err)
    (srsErr : Err → Bool) (r : List Byte) (opq : Int) (res : Res)
    (h : (readRes r).1 = .ok res) (heq : res.Opaque = uint32 opq) :
    consumeResponseCheckOpaque statusToError srsErr r opq
      = consumeResponse statusToError srsErr r := by
  have ho : ¬ res.Opaque ≠ uint32 opq := by simpa using heq
  rw [consumeResponseCheckOpaque_of_ok statusToError srsErr opq h, if_neg ho,
    consumeResponse_of_ok statusToError srsErr h]

/-- Witness for C9: a hit carrying opaque 1234, read with opaque 1234. -/
theorem consumeResponseCheckOpaque_eq_consumeResponse_witness :
    (readRes getHitStream).1 = .ok getHitHeader ∧ getHitHeader.Opaque = uint32 1234 ∧
      consumeResponseCheckOpaque statusToErrorTable srsErrTable getHitStream 1234
        = consumeResponse statusToErrorTable srsErrTable getHitStream :=
  ⟨rfl, by decide,
    consumeResponseCheckOpaque_eq_consumeResponse statusToErrorTable srsErrTable getHitStream
      1234 getHitHeader rfl (by decide)⟩

/-- The magic, the opcode and the opaque a request header declares: the request
magic, the opcode cut to a byte, and opaque 0 when 0 is passed. -/
theorem writeReq_declared_head (opcode keylen extralen bodylen : Nat) (tail : List Byte) :
    at8 (writeReq opcode keylen extralen bodylen 0 ++ tail) 0 = MagicRequest ∧
      declaredOpcode (writeReq opcode keylen extralen bodylen 0 ++ tail) = opcode % 256 ∧
      declaredOpaque (writeReq opcode keylen extralen bodylen 0 ++ tail) = 0 := by
  rw [writeReq_bytes]
  simp only [declaredOpcode, declaredOpaque, at32, at16, at8,
    List.cons_append, List.getD_cons_zero, List.getD_cons_succ, byte_val]
  exact ⟨rfl, trivial, by decide⟩

/-- C10: for every list of keys whose lengths fit the two-byte key length of a
request frame, `BatchGet` writes, for each key in list order, one 24-byte
request header with the request magic, opcode GetQ, key length `len(key)`,
extra length 0, total body length `len(key)` and opaque 0, followed by the
key, and then exactly one no-op request header with all lengths 0; for the
empty list the output is that 24-byte no-op header alone. -/
theorem BatchGet_writes_getq_frames (statusToError : Nat → Option Err) (r : List Byte)
    (keys : List (List Byte)) (hk : ∀ key ∈ keys, key.length < 65536) :
    (BinProt.BatchGet statusToError r keys).written =
        keys.flatMap (fun key => writeReq GetQ key.length 0 key.length 0 ++ key)
          ++ writeReq Noop 0 0 0 0 ∧
      (∀ key ∈ keys, ∀ tail : List Byte,
        (writeReq GetQ key.length 0 key.length 0).length = 24 ∧
        at8 (writeReq GetQ key.length 0 key.length 0 ++ tail) 0 = MagicRequest ∧
        declaredOpcode (writeReq GetQ key.length 0 key.length 0 ++ tail) = GetQ ∧
        declaredKeyLen (writeReq GetQ key.length 0 key.length 0 ++ tail) = key.length ∧
        declaredExtraLen (writeReq GetQ key.length 0 key.length 0 ++ tail) = 0 ∧
        declaredBodyLen (writeReq GetQ key.length 0 key.length 0 ++ tail) = key.length ∧
        declaredOpaque (writeReq GetQ key.length 0 key.length 0 ++ tail) = 0) ∧
      writeReq Noop 0 0 0 0 =
        [0x80, 0x0a, 0, 0, 0, 0, 0, 0, 0, 0, 0, 0, 0, 0, 0, 0, 0, 0, 0, 0, 0, 0, 0, 0] ∧
      (BinProt.BatchGet statusToError r []).written =
        [0x80, 0x0a, 0, 0, 0, 0, 0, 0, 0, 0, 0, 0, 0, 0, 0, 0, 0, 0, 0, 0, 0, 0, 0, 0] := by
  have hn : writeReq Noop 0 0 0 0 =
      [0x80, 0x0a, 0, 0, 0, 0, 0, 0, 0, 0, 0, 0, 0, 0, 0, 0, 0, 0, 0, 0, 0, 0, 0, 0] := by
    decide
  refine ⟨?_, ?_, hn, ?_⟩
  · simp only [BinProt.BatchGet]
    rw [BatchGet_loop_written, List.nil_append]
  · intro key hmem tail
    have hlt := hk key hmem
    have hd := writeReq_declared GetQ key.length 0 key.length 0 tail
    have hh := writeReq_declared_head GetQ key.length 0 key.length tail
    refine ⟨writeReq_length _ _ _ _ _, hh.1, ?_, ?_, hd.2.1, ?_, hh.2.2⟩
    · rw [hh.2.1]; rfl
    · rw [hd.1]; exact Nat.mod_eq_of_lt hlt
    · rw [hd.2.2]; exact Nat.mod_eq_of_lt (by omega)
  · simp only [BinProt.BatchGet, List.foldl_nil, List.nil_append, hn]

/-- Witness for C10: the keys `a` and `bc`. -/
theorem BatchGet_writes_getq_frames_witness :
    (∀ key ∈ [[(0x61 : Byte)], [0x62, 0x63]], key.length < 65536) ∧
      (BinProt.BatchGet statusToErrorTable [] [[0x61], [0x62, 0x63]]).written =
        [[(0x61 : Byte)], [0x62, 0x63]].flatMap
            (fun key => writeReq GetQ key.length 0 key.length 0 ++ key)
          ++ writeReq Noop 0 0 0 0 ∧
      (BinProt.BatchGet statusToErrorTable [] [[0x61], [0x62, 0x63]]).written =
        [0x80, 0x09, 0, 1, 0, 0, 0, 0, 0, 0, 0, 1, 0, 0, 0, 0, 0, 0, 0, 0, 0, 0, 0, 0, 0x61,
         0x80, 0x09, 0, 2, 0, 0, 0, 0, 0, 0, 0, 2, 0, 0, 0, 0, 0, 0, 0, 0, 0, 0, 0, 0, 0x62, 0x63,
         0x80, 0x0a, 0, 0, 0, 0, 0, 0, 0, 0, 0, 0, 0, 0, 0, 0, 0, 0, 0, 0, 0, 0, 0, 0] :=
  ⟨by decide,
    (BatchGet_writes_getq_frames statusToErrorTable [] [[0x61], [0x62, 0x63]] (by decide)).1,
    by decide⟩

/-- C11: for every key, value and expiration within the widths of the request
frame (key shorter than 2^16 bytes, total body shorter than 2^32 bytes, a
four-byte expiration), `Set`, `Add` and `Replace` each write one frame: the
24-byte request header with their own opcode, key length `len(key)`, extra
length 8, total body length `8 + len(key) + len(value)` and opaque 0, then
four zero bytes of flags, then the expiration as four big-endian bytes, then
the key, then the value.  The output of `Add` and of `Replace` is that of
`Set` with byte 1, the opcode, replaced. -/
theorem storage_verbs_write_one_frame (statusToError : Nat → Option Err)
    (srsErr : Err → Bool) (exp : Nat) (r key value : List Byte)
    (hk : key.length < 65536) (hb : 8 + key.length + value.length < 4294967296)
    (he : exp < 4294967296) :
    (BinProt.Set statusToError srsErr exp r key value).written
        = writeReq Binprot.Set key.length 8 (8 + key.length + value.length) 0
            ++ [0, 0, 0, 0] ++ be32 exp ++ key ++ value ∧
      (BinProt.Add statusToError srsErr exp r key value).written
        = writeReq Binprot.Add key.length 8 (8 + key.length + value.length) 0
            ++ [0, 0, 0, 0] ++ be32 exp ++ key ++ value ∧
      (BinProt.Replace statusToError srsErr exp r key value).written
        = writeReq Binprot.Replace key.length 8 (8 + key.length + value.length) 0
            ++ [0, 0, 0, 0] ++ be32 exp ++ key ++ value ∧
      (∀ opcode tail, opcode < 256 →
        (writeReq opcode key.length 8 (8 + key.length + value.length) 0).length = 24 ∧
        at8 (writeReq opcode key.length 8 (8 + key.length + value.length) 0 ++ tail) 0
          = MagicRequest ∧
        declaredOpcode (writeReq opcode key.length 8 (8 + key.length + value.length) 0 ++ tail)
          = opcode ∧
        declaredKeyLen (writeReq opcode key.length 8 (8 + key.length + value.length) 0 ++ tail)
          = key.length ∧
        declaredExtraLen (writeReq opcode key.length 8 (8 + key.length + value.length) 0 ++ tail)
          = 8 ∧
        declaredBodyLen (writeReq opcode key.length 8 (8 + key.length + value.length) 0 ++ tail)
          = 8 + key.length + value.length ∧
        declaredOpaque (writeReq opcode key.length 8 (8 + key.length + value.length) 0 ++ tail)
          = 0) ∧
      ((be32 exp).length = 4 ∧ at32 (be32 exp) 0 = exp) ∧
      (BinProt.Set statusToError srsErr exp r key value).written
        = storageFrame 0x01 exp key value ∧
      (BinProt.Add statusToError srsErr exp r key value).written
        = (BinProt.Set statusToError srsErr exp r key value).written.set 1 0x02 ∧
      (BinProt.Replace statusToError srsErr exp r key value).written
        = (BinProt.Set statusToError srsErr exp r key value).written.set 1 0x03 := by
  have hz : be32 0 = [0, 0, 0, 0] := by decide
  have hs : (BinProt.Set statusToError srsErr exp r key value).written
      = storageFrame 0x01 exp key value := by
    simp only [BinProt.Set, writeReq_bytes, be32, storageFrame, List.append_assoc,
      List.cons_append, List.nil_append]
    rfl
  have ha : (BinProt.Add statusToError srsErr exp r key value).written
      = storageFrame 0x02 exp key value := by
    simp only [BinProt.Add, writeReq_bytes, be32, storageFrame, List.append_assoc,
      List.cons_append, List.nil_append]
    rfl
  have hr : (BinProt.Replace statusToError srsErr exp r key value).written
      = storageFrame 0x03 exp key value := by
    simp only [BinProt.Replace, writeReq_bytes, be32, storageFrame, List.append_assoc,
      List.cons_append, List.nil_append]
    rfl
  refine ⟨?_, ?_, ?_, ?_, ?_, hs, ?_, ?_⟩
  · simp only [BinProt.Set, hz]
  · simp only [BinProt.Add, hz]
  · simp only [BinProt.Replace, hz]
  · intro opcode tail hop
    have hd := writeReq_declared opcode key.length 8 (8 + key.length + value.length) 0 tail
    have hh := writeReq_declared_head opcode key.length 8 (8 + key.length + value.length) tail
    refine ⟨writeReq_length _ _ _ _ _, hh.1, ?_, ?_, hd.2.1, ?_, hh.2.2⟩
    · rw [hh.2.1]; exact Nat.mod_eq_of_lt hop
    · rw [hd.1]; exact Nat.mod_eq_of_lt hk
    · rw [hd.2.2]; exact Nat.mod_eq_of_lt hb
  · constructor
    · simp [be32]
    · simp only [be32, at32, at16, at8, List.getD_cons_zero, List.getD_cons_succ, byte_val]
      omega
  · rw [ha, hs]; rfl
  · rw [hr, hs]; rfl

/-- Witness for C11: key `a`, value `bc`, expiration 0x01020304. -/
theorem storage_verbs_write_one_frame_witness :
    ([(0x61 : Byte)].length < 65536 ∧
        8 + [(0x61 : Byte)].length + [(0x62 : Byte), 0x63].length < 4294967296 ∧
        16909060 < 4294967296) ∧
      (BinProt.Set statusToErrorTable srsErrTable 16909060 [] [0x61] [0x62, 0x63]).written
        = writeReq Binprot.Set [(0x61 : Byte)].length 8
            (8 + [(0x61 : Byte)].length + [(0x62 : Byte), 0x63].length) 0
            ++ [0, 0, 0, 0] ++ be32 16909060 ++ [0x61] ++ [0x62, 0x63] ∧
      (BinProt.Set statusToErrorTable srsErrTable 16909060 [] [0x61] [0x62, 0x63]).written
        = [0x80, 0x01, 0, 1, 8, 0, 0, 0, 0, 0, 0, 11, 0, 0, 0, 0, 0, 0, 0, 0, 0, 0, 0, 0,
           0, 0, 0, 0, 1, 2, 3, 4, 0x61, 0x62, 0x63] :=
  ⟨by decide,
    (storage_verbs_write_one_frame statusToErrorTable srsErrTable 16909060 [] [0x61]
      [0x62, 0x63] (by decide) (by decide) (by decide)).1,
    by decide⟩

/-- The batch loop over complete frames, none of them a no-op, followed by a
header read that fails: the error of that read comes back alone. -/
theorem consumeBatchLoop_read_error (statusToError : Nat → Option Err) (fs : List Frame) :
    ∀ (tail : List Byte) (e : Err) (fuel opcode : Nat) (apperr : Option Err)
      (ret : List (List Byte)),
      (∀ f ∈ fs, f.wf ∧ f.hdr.Opcode ≠ Noop) → (readRes tail).1 = .error e →
      opcode ≠ Noop → fs.length + 1 ≤ fuel →
      consumeBatchLoop statusToError fuel opcode apperr ret (encodeFrames fs ++ tail) =
        some (.returned none (some e) (readRes tail).2) := by
  induction fs with
  | nil =>
    intro tail e fuel opcode apperr ret _ herr hop hfuel
    obtain ⟨k, rfl⟩ : ∃ k, fuel = k + 1 := ⟨fuel - 1, by simp at hfuel; omega⟩
    have hp : readRes tail = (.error e, (readRes tail).2) := by
      rw [← herr]
    simp only [encodeFrames, List.nil_append]
    rw [consumeBatchLoop, if_neg hop]
    rw [hp]
  | cons f fs ih =>
    intro tail e fuel opcode apperr ret hfs herr hop hfuel
    obtain ⟨k, rfl⟩ : ∃ k, fuel = k + 1 := ⟨fuel - 1, by simp at hfuel; omega⟩
    have hf := hfs f (List.mem_cons_self f fs)
    have hs : encodeFrames (f :: fs) ++ tail = f.encode ++ (encodeFrames fs ++ tail) := by
      simp [encodeFrames]
    obtain ⟨h1, h2⟩ := readRes_frame f hf.1 (encodeFrames fs ++ tail)
    rw [hs, consumeBatchLoop_step statusToError k opcode apperr ret hop h1 hf.1.2.2, h2,
      readFull_frame f hf.1 _]
    exact ih tail e k f.hdr.Opcode (statusToError f.hdr.Status) _
      (fun g hg => hfs g (List.mem_cons_of_mem f hg)) herr hf.2 (by simp at hfuel; omega)

/-- C12, with the extras inside the body of every frame: on a stream of
`k ≥ 0` complete frames, none of them a no-op and each with
`ExtraLen ≤ BodyLen`, followed by bytes on which the header read fails,
`consumeBatchResponse` returns the error of that read and nil instead of the
`k` values read so far.  The read fails with an end-of-stream error when fewer than 24 bytes are
left and with the bad-magic error when 24 bytes are there and the first is not
the response magic. -/
theorem consumeBatchResponse_read_error_discards_values (statusToError : Nat → Option Err)
    (fs : List Frame) (tail : List Byte) (e : Err)
    (hfs : ∀ f ∈ fs, f.wf ∧ f.hdr.Opcode ≠ Noop) (herr : (readRes tail).1 = .error e) :
    consumeBatchResponse statusToError (encodeFrames fs ++ tail) =
        some (.returned none (some e) (readRes tail).2) ∧
      (tail.length < 24 → e = Err.EOF ∨ e = Err.ErrUnexpectedEOF) ∧
      (24 ≤ tail.length → e = Err.ErrBadMagic ∧ at8 tail 0 ≠ MagicResponse) := by
  refine ⟨?_, ?_, ?_⟩
  · unfold consumeBatchResponse
    have h1 := encodeFrames_length_ge fs
    have h3 : fs.length ≤ (encodeFrames fs ++ tail).length / 24 := by
      rw [Nat.le_div_iff_mul_le (by decide)]
      simp only [List.length_append]
      omega
    exact consumeBatchLoop_read_error statusToError fs tail e _ Get none [] hfs herr
      (by decide) (by omega)
  · intro hlt
    unfold readRes readFull at herr
    have h1 : ¬ 24 ≤ tail.length := by omega
    simp only [h1, if_false] at herr
    by_cases h2 : tail = []
    · simp [h2] at herr
      exact Or.inl herr.symm
    · simp [h2] at herr
      exact Or.inr herr.symm
  · intro hle
    unfold readRes at herr
    rw [readFull_of_le tail 24 hle] at herr
    by_cases hm : (decodeRes (List.take 24 tail)).Magic = MagicResponse
    · simp [hm] at herr
    · simp [hm] at herr
      refine ⟨herr.symm, ?_⟩
      intro h0
      apply hm
      have : (decodeRes (List.take 24 tail)).Magic = at8 tail 0 := by
        cases tail with
        | nil => simp at hle
        | cons a t => simp [decodeRes, at8]
      rw [this, h0]

/-- Witness for C12: a hit and a miss, then three bytes of a header. -/
theorem consumeBatchResponse_read_error_discards_values_witness :
    (∀ f ∈ [hitFrame1, missFrame], f.wf ∧ f.hdr.Opcode ≠ Noop) ∧
      (readRes cutHeader).1 = .error Err.ErrUnexpectedEOF ∧
      (consumeBatchResponse statusToErrorTable (encodeFrames [hitFrame1, missFrame] ++ cutHeader)
          = some (.returned none (some Err.ErrUnexpectedEOF) (readRes cutHeader).2) ∧
        (cutHeader.length < 24 →
          Err.ErrUnexpectedEOF = Err.EOF ∨ Err.ErrUnexpectedEOF = Err.ErrUnexpectedEOF) ∧
        (24 ≤ cutHeader.length →
          Err.ErrUnexpectedEOF = Err.ErrBadMagic ∧ at8 cutHeader 0 ≠ MagicResponse)) :=
  ⟨by decide, rfl,
    consumeBatchResponse_read_error_discards_values statusToErrorTable [hitFrame1, missFrame]
      cutHeader Err.ErrUnexpectedEOF (by decide) rfl⟩

/-- Counterexample to C12: one complete frame that is no terminator (valid
header, body of the declared length zero) but declares one byte of extras,
followed by three bytes on which the header read fails.  The loop panics at
the slice of the first frame and never returns the read error. -/
theorem consumeBatchResponse_panics_before_read_error :
    extrasOverBodyFrame.hdr.valid ∧
      extrasOverBodyFrame.body.length = extrasOverBodyFrame.hdr.BodyLen ∧
      extrasOverBodyFrame.hdr.Opcode ≠ Noop ∧
      (readRes cutHeader).1 = .error Err.ErrUnexpectedEOF ∧
      consumeBatchResponse statusToErrorTable (encodeFrames [extrasOverBodyFrame] ++ cutHeader)
        = some (.aborted "slice bounds out of range" cutHeader) ∧
      consumeBatchResponse statusToErrorTable (encodeFrames [extrasOverBodyFrame] ++ cutHeader)
        ≠ some (.returned none (some Err.ErrUnexpectedEOF) (readRes cutHeader).2) :=
  ⟨by decide, by decide, by decide, rfl, by decide, by decide⟩

/-- C13, as the code has it: once the header has parsed, the slice
`buf[res.ExtraLen:]` of `consumeResponse` panics if and only if the extra
length exceeds the body length, and otherwise the call returns a value of
`BodyLen - ExtraLen` bytes.  The same holds for `consumeResponseCheckOpaque`
when the opaque matches (the slice is not reached otherwise).  A round of the
batch loop panics at the slice when the extra length exceeds the body length,
and otherwise appends a value of `BodyLen - ExtraLen` bytes and goes on with
the next round. -/
theorem extras_slice_panics_iff (statusToError : Nat → Option Err) (srsErr : Err → Bool)
    (r : List Byte) (res : Res) (opq : Int) (h : (readRes r).1 = .ok res) :
    ((∃ rest, consumeResponse statusToError srsErr r
        = .aborted "slice bounds out of range" rest) ↔ res.BodyLen < res.ExtraLen) ∧
      (res.ExtraLen ≤ res.BodyLen →
        ∃ v err rest, consumeResponse statusToError srsErr r = .returned (some v) err rest ∧
          v.length = res.BodyLen - res.ExtraLen) ∧
      (res.Opaque = uint32 opq →
        ((∃ rest, consumeResponseCheckOpaque statusToError srsErr r opq
            = .aborted "slice bounds out of range" rest) ↔ res.BodyLen < res.ExtraLen) ∧
        (res.ExtraLen ≤ res.BodyLen →
          ∃ v err rest, consumeResponseCheckOpaque statusToError srsErr r opq
              = .returned (some v) err rest ∧
            v.length = res.BodyLen - res.ExtraLen)) ∧
      (∀ (fuel opcode : Nat) (apperr : Option Err) (ret : List (List Byte)), opcode ≠ Noop →
        (res.BodyLen < res.ExtraLen →
          ∃ rest, consumeBatchLoop statusToError (fuel + 1) opcode apperr ret r
            = some (.aborted "slice bounds out of range" rest)) ∧
        (res.ExtraLen ≤ res.BodyLen →
          ∃ v rest, v.length = res.BodyLen - res.ExtraLen ∧
            consumeBatchLoop statusToError (fuel + 1) opcode apperr ret r
              = consumeBatchLoop statusToError fuel res.Opcode (statusToError res.Status)
                  (ret ++ [v]) rest)) := by
  have hc := consumeResponse_of_ok statusToError srsErr h
  have hvlen : ((readFull (r.drop 24) res.BodyLen).1.drop res.ExtraLen).length
      = res.BodyLen - res.ExtraLen := by
    rw [List.length_drop, readFull_length]
  have single : ∀ out : Run (List Byte),
      (out = if res.BodyLen < res.ExtraLen then
          .aborted "slice bounds out of range" (readFull (r.drop 24) res.BodyLen).2.2
        else
          .returned (some ((readFull (r.drop 24) res.BodyLen).1.drop res.ExtraLen))
            ((statusToError res.Status).filter srsErr) (readFull (r.drop 24) res.BodyLen).2.2) →
      ((∃ rest, out = .aborted "slice bounds out of range" rest) ↔
          res.BodyLen < res.ExtraLen) ∧
        (res.ExtraLen ≤ res.BodyLen →
          ∃ v err rest, out = .returned (some v) err rest ∧
            v.length = res.BodyLen - res.ExtraLen) := by
    intro out hout
    by_cases hx : res.BodyLen < res.ExtraLen
    · rw [if_pos hx] at hout
      exact ⟨⟨fun _ => hx, fun _ => ⟨_, hout⟩⟩, fun hle => absurd hx (by omega)⟩
    · rw [if_neg hx] at hout
      refine ⟨⟨?_, fun hlt => absurd hlt hx⟩, fun _ => ⟨_, _, _, hout, hvlen⟩⟩
      rintro ⟨rest, hab⟩
      rw [hout] at hab
      cases hab
  refine ⟨(single _ hc).1, (single _ hc).2, ?_, ?_⟩
  · intro ho
    have ho2 : ¬ res.Opaque ≠ uint32 opq := by simpa using ho
    have hk := consumeResponseCheckOpaque_of_ok statusToError srsErr opq h
    rw [if_neg ho2] at hk
    exact single _ hk
  · intro fuel opcode apperr ret hop
    constructor
    · intro hlt
      refine ⟨(readFull (r.drop 24) res.BodyLen).2.2, ?_⟩
      rw [consumeBatchLoop, if_neg hop, (readRes_ok h).1]
      simp [readFull_length, hlt]
    · intro hle
      exact ⟨_, _, hvlen, consumeBatchLoop_step statusToError fuel opcode apperr ret hop h hle⟩

/-- Witness for C13: a hit with four bytes of extras in a six-byte body. -/
theorem extras_slice_panics_iff_witness :
    (readRes getHitStream).1 = .ok getHitHeader ∧
      ((∃ rest, consumeResponse statusToErrorTable srsErrTable getHitStream
          = .aborted "slice bounds out of range" rest) ↔
        getHitHeader.BodyLen < getHitHeader.ExtraLen) ∧
      (getHitHeader.ExtraLen ≤ getHitHeader.BodyLen →
        ∃ v err rest, consumeResponse statusToErrorTable srsErrTable getHitStream
            = .returned (some v) err rest ∧
          v.length = getHitHeader.BodyLen - getHitHeader.ExtraLen) :=
  ⟨rfl,
    (extras_slice_panics_iff statusToErrorTable srsErrTable getHitStream getHitHeader 1234
      rfl).1,
    (extras_slice_panics_iff statusToErrorTable srsErrTable getHitStream getHitHeader 1234
      rfl).2.1⟩

/-- Counterexample to C13: the header parses with four bytes of extras in a
six-byte body, so the precondition holds; read with opaque 7 when the header
carries 1234, `consumeResponseCheckOpaque` panics and returns nothing; and on
a stream that ends after such a frame `consumeBatchResponse` returns the
error of the next header read and no value. -/
theorem extras_fit_yet_no_value :
    (readRes getHitStream).1 = .ok getHitHeader ∧
      getHitHeader.ExtraLen ≤ getHitHeader.BodyLen ∧
      consumeResponseCheckOpaque statusToErrorTable srsErrTable getHitStream 7
        = .aborted "SHIT" [0, 0, 0, 0, 0x68, 0x69, 0x81] ∧
      (¬ ∃ v err rest, consumeResponseCheckOpaque statusToErrorTable srsErrTable getHitStream 7
        = .returned v err rest) ∧
      (readRes hitFrame1.encode).1 = .ok hitFrame1.hdr ∧
      hitFrame1.hdr.ExtraLen ≤ hitFrame1.hdr.BodyLen ∧
      consumeBatchResponse statusToErrorTable hitFrame1.encode
        = some (.returned none (some Err.EOF) []) := by
  refine ⟨rfl, by decide, by decide, ?_, rfl, by decide, by decide⟩
  rintro ⟨v, err, rest, hret⟩
  have h2 : consumeResponseCheckOpaque statusToErrorTable srsErrTable getHitStream 7
      = .aborted "SHIT" [0, 0, 0, 0, 0x68, 0x69, 0x81] := by decide
  rw [h2] at hret
  cases hret

/-! ## Termination of the batch loop -/

/-- A read never leaves more unread than there was. -/
theorem readFull_rest_length (r : List Byte) (n : Nat) :
    (readFull r n).2.2.length ≤ r.length := by
  unfold readFull
  split
  · simp
  · split <;> simp

/-- A round of the batch loop that gets past the header has taken at least
the 24 header bytes off the stream. -/
theorem round_consumes_header {r : List Byte} {res : Res} (h : (readRes r).1 = .ok res) :
    (readFull (r.drop 24) res.BodyLen).2.2.length + 24 ≤ r.length := by
  have h1 := (readRes_ok h).2.1
  have h2 := readFull_rest_length (r.drop 24) res.BodyLen
  simp only [List.length_drop] at h2
  omega

/-- With more fuel than a twenty-fourth of the stream the batch loop ends,
from every state. -/
theorem consumeBatchLoop_ends (statusToError : Nat → Option Err) :
    ∀ (fuel opcode : Nat) (apperr : Option Err) (ret : List (List Byte)) (r : List Byte),
      r.length / 24 + 1 ≤ fuel →
      ∃ out, consumeBatchLoop statusToError fuel opcode apperr ret r = some out := by
  intro fuel
  induction fuel with
  | zero => intro opcode apperr ret r hf; omega
  | succ k ih =>
    intro opcode apperr ret r hf
    rw [consumeBatchLoop]
    by_cases hop : opcode = Noop
    · exact ⟨_, if_pos hop⟩
    · rw [if_neg hop]
      cases hr : (readRes r).1 with
      | error e =>
        have hp : readRes r = (.error e, (readRes r).2) := by rw [← hr]
        rw [hp]
        exact ⟨_, rfl⟩
      | ok res =>
        rw [(readRes_ok hr).1]
        simp only [readFull_length]
        by_cases hx : res.BodyLen < res.ExtraLen
        · exact ⟨_, if_pos hx⟩
        · rw [if_neg hx]
          apply ih
          have h1 := round_consumes_header hr
          have h2 : (readFull (r.drop 24) res.BodyLen).2.2.length / 24 + 1 ≤ r.length / 24 := by
            rw [Nat.le_div_iff_mul_le (by decide)]
            have := Nat.div_mul_le_self (readFull (r.drop 24) res.BodyLen).2.2.length 24
            omega
          omega

/-- Once the batch loop has ended, more fuel changes nothing. -/
theorem consumeBatchLoop_fuel_mono (statusToError : Nat → Option Err) :
    ∀ (fuel opcode : Nat) (apperr : Option Err) (ret : List (List Byte)) (r : List Byte)
      (out : Run (List (List Byte))),
      consumeBatchLoop statusToError fuel opcode apperr ret r = some out →
      ∀ more, consumeBatchLoop statusToError (fuel + more) opcode apperr ret r = some out := by
  intro fuel
  induction fuel with
  | zero =>
    intro opcode apperr ret r out h more
    rw [consumeBatchLoop] at h
    by_cases hop : opcode = Noop
    · rw [if_pos hop] at h
      rw [hop, consumeBatchLoop_noop]
      exact h
    · rw [if_neg hop] at h
      cases h
  | succ k ih =>
    intro opcode apperr ret r out h more
    have hk : k + 1 + more = (k + more) + 1 := by omega
    rw [hk]
    rw [consumeBatchLoop] at h ⊢
    by_cases hop : opcode = Noop
    · rw [if_pos hop] at h ⊢
      exact h
    · rw [if_neg hop] at h ⊢
      cases hr : (readRes r).1 with
      | error e =>
        have hp : readRes r = (.error e, (readRes r).2) := by rw [← hr]
        rw [hp] at h ⊢
        exact h
      | ok res =>
        rw [(readRes_ok hr).1] at h ⊢
        simp only [readFull_length] at h ⊢
        by_cases hx : res.BodyLen < res.ExtraLen
        · rw [if_pos hx] at h ⊢
          exact h
        · rw [if_neg hx] at h ⊢
          exact ih _ _ _ _ _ h more

/-- The batch loop never runs more rounds than a twenty-fourth of the stream
plus one, however many it is allowed. -/
theorem consumeBatchRounds_le :
    ∀ (fuel opcode : Nat) (r : List Byte), consumeBatchRounds fuel opcode r ≤ r.length / 24 + 1 := by
  intro fuel
  induction fuel with
  | zero => intro opcode r; simp [consumeBatchRounds]
  | succ k ih =>
    intro opcode r
    rw [consumeBatchRounds]
    by_cases hop : opcode = Noop
    · rw [if_pos hop]; omega
    · rw [if_neg hop]
      cases hr : (readRes r).1 with
      | error e =>
        have hp : readRes r = (.error e, (readRes r).2) := by rw [← hr]
        rw [hp]
        simp
      | ok res =>
        rw [(readRes_ok hr).1]
        simp only [readFull_length]
        by_cases hx : res.BodyLen < res.ExtraLen
        · rw [if_pos hx]; omega
        · rw [if_neg hx]
          have h1 := round_consumes_header hr
          have h3 := ih res.Opcode (readFull (r.drop 24) res.BodyLen).2.2
          have h2 : (readFull (r.drop 24) res.BodyLen).2.2.length / 24 + 1 ≤ r.length / 24 := by
            rw [Nat.le_div_iff_mul_le (by decide)]
            have := Nat.div_mul_le_self (readFull (r.drop 24) res.BodyLen).2.2.length 24
            omega
          omega

/-- The round counter counts the rounds of the loop: when the loop is cut off
by its fuel, it has run as many rounds as it was allowed. -/
theorem consumeBatchRounds_of_cut_off (statusToError : Nat → Option Err) :
    ∀ (fuel opcode : Nat) (apperr : Option Err) (ret : List (List Byte)) (r : List Byte),
      consumeBatchLoop statusToError fuel opcode apperr ret r = none →
      consumeBatchRounds fuel opcode r = fuel := by
  intro fuel
  induction fuel with
  | zero => intro opcode apperr ret r _; rfl
  | succ k ih =>
    intro opcode apperr ret r h
    rw [consumeBatchLoop] at h
    rw [consumeBatchRounds]
    by_cases hop : opcode = Noop
    · rw [if_pos hop] at h; cases h
    · rw [if_neg hop] at h ⊢
      cases hr : (readRes r).1 with
      | error e =>
        have hp : readRes r = (.error e, (readRes r).2) := by rw [← hr]
        rw [hp] at h
        cases h
      | ok res =>
        rw [(readRes_ok hr).1] at h ⊢
        simp only [readFull_length] at h ⊢
        by_cases hx : res.BodyLen < res.ExtraLen
        · rw [if_pos hx] at h; cases h
        · rw [if_neg hx] at h ⊢
          rw [ih _ _ _ _ h]
          omega

/-- C14: on every finite stream the loop of `consumeBatchResponse` ends, also
when no no-op frame ever comes: `len(r) / 24 + 1` rounds are enough for it to
return or panic, more rounds allowed change nothing, and the number of rounds
it runs is at most `len(r) / 24 + 1`.  A round entered with an opcode other
than the no-op either returns the error of its header read or has parsed a
header and left at least 24 bytes fewer unread. -/
theorem consumeBatchResponse_terminates (statusToError : Nat → Option Err) (r : List Byte) :
    (∃ out, consumeBatchResponse statusToError r = some out) ∧
      (∀ fuel, r.length / 24 + 1 ≤ fuel →
        consumeBatchLoop statusToError fuel Get none [] r
          = consumeBatchResponse statusToError r) ∧
      (∀ fuel, consumeBatchRounds fuel Get r ≤ r.length / 24 + 1) ∧
      (∀ (fuel opcode : Nat) (apperr : Option Err) (ret : List (List Byte)) (s : List Byte),
        opcode ≠ Noop →
        (∃ e, (readRes s).1 = .error e ∧
          consumeBatchLoop statusToError (fuel + 1) opcode apperr ret s
            = some (.returned none (some e) (readRes s).2)) ∨
        (∃ res, (readRes s).1 = .ok res ∧
          (readFull (s.drop 24) res.BodyLen).2.2.length + 24 ≤ s.length)) := by
  obtain ⟨out, hout⟩ := consumeBatchLoop_ends statusToError (r.length / 24 + 1) Get none [] r
    (Nat.le_refl _)
  refine ⟨⟨out, hout⟩, ?_, fun fuel => consumeBatchRounds_le fuel Get r, ?_⟩
  · intro fuel hf
    obtain ⟨d, rfl⟩ : ∃ d, fuel = r.length / 24 + 1 + d := ⟨fuel - (r.length / 24 + 1), by omega⟩
    unfold consumeBatchResponse
    rw [hout]
    exact consumeBatchLoop_fuel_mono statusToError _ Get none [] r out hout d
  · intro fuel opcode apperr ret s hop
    cases hr : (readRes s).1 with
    | error e =>
      left
      refine ⟨e, rfl, ?_⟩
      have hp : readRes s = (.error e, (readRes s).2) := by rw [← hr]
      rw [consumeBatchLoop, if_neg hop]
      rw [hp]
    | ok res =>
      right
      exact ⟨res, rfl, round_consumes_header hr⟩

/-- Witness for C14: sixty bytes holding two hits and no terminator: the loop
runs `60 / 24 + 1 = 3` rounds and returns the end-of-stream error of the third
header read. -/
theorem consumeBatchResponse_terminates_witness :
    noTerminatorStream.length = 60 ∧
      consumeBatchRounds 100 Get noTerminatorStream = 3 ∧
      consumeBatchResponse statusToErrorTable noTerminatorStream
        = some (.returned none (some Err.EOF) []) ∧
      (∃ out, consumeBatchResponse statusToErrorTable noTerminatorStream = some out) :=
  ⟨by decide, by decide, by decide,
    (consumeBatchResponse_terminates statusToErrorTable noTerminatorStream).1⟩

/-- The value of a frame does not depend on its status. -/
theorem Frame.value_withStatus (f : Frame) (status : Nat) :
    (f.withStatus status).value = f.value := rfl

/-- Frames that agree once their statuses are erased carry the same values. -/
theorem values_eq_of_same_but_status (fs1 fs2 : List Frame)
    (hsame : fs2.map (fun f => f.withStatus 0) = fs1.map (fun f => f.withStatus 0)) :
    fs2.map Frame.value = fs1.map Frame.value := by
  have h := congrArg (List.map Frame.value) hsame
  simpa [List.map_map, Function.comp_def, Frame.value_withStatus] using h

/-- C15: on a well-formed batch reply the error `consumeBatchResponse` returns
is `statusToError` of the status of the last frame it reads, the no-op
terminator, as it is: no `srsErr` takes part.  A second well-formed reply that
differs from the first only in the statuses of the frames before the
terminator returns the same error (and the same values). -/
theorem consumeBatchResponse_error_ignores_earlier_statuses
    (statusToError : Nat → Option Err) (fs1 fs2 : List Frame) (term : Frame)
    (rest : List Byte) (h1 : ∀ f ∈ fs1, f.wf ∧ f.hdr.Opcode ≠ Noop)
    (h2 : ∀ f ∈ fs2, f.wf ∧ f.hdr.Opcode ≠ Noop)
    (hsame : fs2.map (fun f => f.withStatus 0) = fs1.map (fun f => f.withStatus 0))
    (hterm : term.wf) (hnoop : term.hdr.Opcode = Noop) :
    ∃ vals,
      consumeBatchResponse statusToError (encodeFrames fs1 ++ term.encode ++ rest)
        = some (.returned (some vals) (statusToError term.hdr.Status) rest) ∧
      consumeBatchResponse statusToError (encodeFrames fs2 ++ term.encode ++ rest)
        = some (.returned (some vals) (statusToError term.hdr.Status) rest) := by
  refine ⟨fs1.map Frame.value ++ [term.value], ?_, ?_⟩
  · exact consumeBatchResponse_frames statusToError fs1 term rest h1 hterm hnoop
  · rw [consumeBatchResponse_frames statusToError fs2 term rest h2 hterm hnoop,
      values_eq_of_same_but_status fs1 fs2 hsame]

/-- Witness for C15: two replies that differ in the status of their first
frame, both ended by a terminator with status 2: both return the key-exists
error of the terminator. -/
theorem consumeBatchResponse_error_ignores_earlier_statuses_witness :
    (∀ f ∈ [hitFrame1, missFrame, hitFrame3], f.wf ∧ f.hdr.Opcode ≠ Noop) ∧
      (∀ f ∈ [hitFrame1NotFound, missFrame, hitFrame3], f.wf ∧ f.hdr.Opcode ≠ Noop) ∧
      [hitFrame1NotFound, missFrame, hitFrame3].map (fun f => f.withStatus 0)
        = [hitFrame1, missFrame, hitFrame3].map (fun f => f.withStatus 0) ∧
      noopFrameExists.wf ∧ noopFrameExists.hdr.Opcode = Noop ∧
      statusToErrorTable noopFrameExists.hdr.Status = some Err.ErrKeyExists ∧
      ∃ vals,
        consumeBatchResponse statusToErrorTable
            (encodeFrames [hitFrame1, missFrame, hitFrame3] ++ noopFrameExists.encode ++ [])
          = some (.returned (some vals) (statusToErrorTable noopFrameExists.hdr.Status) []) ∧
        consumeBatchResponse statusToErrorTable
            (encodeFrames [hitFrame1NotFound, missFrame, hitFrame3] ++ noopFrameExists.encode
              ++ [])
          = some (.returned (some vals) (statusToErrorTable noopFrameExists.hdr.Status) []) :=
  ⟨by decide, by decide, by decide, by decide, by decide, by decide,
    consumeBatchResponse_error_ignores_earlier_statuses statusToErrorTable
      [hitFrame1, missFrame, hitFrame3] [hitFrame1NotFound, missFrame, hitFrame3]
      noopFrameExists [] (by decide) (by decide) (by decide) (by decide) (by decide)⟩

end Binprot
